import Mathlib

/-!
Regression objectives of LightGBM (`src/objective/regression_objective.hpp`)

An embedding of the two classes `RegressionL2loss` and `RegressionFairloss`.

* `score_t` / `float` values are elements of a linearly ordered field `α`
  (exact arithmetic: `ℚ` for evaluation, `ℝ` for analysis).  Rounding, overflow,
  underflow and NaN of IEEE floating point are outside this model: a theorem
  here says which expression the code evaluates at each index, in exact
  arithmetic.  The theorems of the section on derivatives are about the
  real-valued formulas.
* A pointer to an array is a `List α`; the null pointer of `weights_` is `none`.
* Reading or writing an index outside a list makes the call return `none`
  (the undefined behaviour of the C++ code).
* `#pragma omp parallel for` loops are run as the sequential loop they annotate.
-/

namespace LightGBM

variable {α : Type}

/-! ## Memory and loops -/

/-- The assignment `buf[i] = v`, failing when `i` is out of bounds. -/
def store (buf : List α) (i : Nat) (v : α) : Option (List α) :=
  if i < buf.length then some (buf.set i v) else none

/-- The loop `for (data_size_t i = 0; i < n; ++i) body`, acting on a state `σ`;
the loop stops with `none` as soon as one iteration fails. -/
def forLoop {σ : Type} (n : Nat) (body : Nat → σ → Option σ) (s : σ) : Option σ :=
  match n with
  | 0 => some s
  | k + 1 => (forLoop k body s).bind (body k)

/-! ## Metadata -/

/-- Modelled from the spec: the class `Metadata` is declared outside this file;
the spec describes it as an accessor exposing `label()` and `weights()`, the
latter signalling absent weights by a null sentinel. -/
structure Metadata (α : Type) where
  /-- The array returned by `label()`. -/
  label : List α
  /-- The array returned by `weights()`, `none` for `nullptr`. -/
  weights : Option (List α)

/-! ## RegressionL2loss -/

/-- The private members of `RegressionL2loss`. -/
structure RegressionL2loss (α : Type) where
  /-- Number of data -/
  num_data_ : Nat
  /-- Pointer of label -/
  label_ : List α
  /-- Pointer of weights -/
  weights_ : Option (List α)

namespace RegressionL2loss

/-- `RegressionL2loss::Init`. -/
def Init (_self : RegressionL2loss α) (metadata : Metadata α) (num_data : Nat) :
    RegressionL2loss α :=
  { num_data_ := num_data, label_ := metadata.label, weights_ := metadata.weights }

/-- `RegressionL2loss::GetGradients`: the gradients and hessians buffers after the call. -/
def GetGradients [LinearOrderedField α] (self : RegressionL2loss α)
    (score gradients hessians : List α) : Option (List α × List α) :=
  match self.weights_ with
  | none =>
    forLoop self.num_data_ (fun i gh => do
      let s ← score[i]?
      let y ← self.label_[i]?
      let g ← store gh.1 i (s - y)
      let h ← store gh.2 i 1
      pure (g, h)) (gradients, hessians)
  | some weights =>
    forLoop self.num_data_ (fun i gh => do
      let s ← score[i]?
      let y ← self.label_[i]?
      let w ← weights[i]?
      let g ← store gh.1 i ((s - y) * w)
      let h ← store gh.2 i w
      pure (g, h)) (gradients, hessians)

/-- `RegressionL2loss::GetSigmoid`. -/
def GetSigmoid [LinearOrderedField α] (_self : RegressionL2loss α) : α := -1

end RegressionL2loss

/-! ## RegressionFairloss -/

/-- The private members of `RegressionFairloss`. -/
structure RegressionFairloss (α : Type) where
  /-- Number of data -/
  num_data_ : Nat
  /-- Pointer of label -/
  label_ : List α
  /-- Pointer of weights -/
  weights_ : Option (List α)

namespace RegressionFairloss

/-- `RegressionFairloss::Init`. -/
def Init (_self : RegressionFairloss α) (metadata : Metadata α) (num_data : Nat) :
    RegressionFairloss α :=
  { num_data_ := num_data, label_ := metadata.label, weights_ := metadata.weights }

/-- The local constant `score_t fair_c_value = 2.0` of `GetGradients`. -/
def fair_c_value [LinearOrderedField α] : α := 2

/-- `RegressionFairloss::GetGradients`: the gradients and hessians buffers after the call.
`pow(x, 2.0)` is the square `x ^ 2`. -/
def GetGradients [LinearOrderedField α] (self : RegressionFairloss α)
    (score gradients hessians : List α) : Option (List α × List α) :=
  match self.weights_ with
  | none =>
    forLoop self.num_data_ (fun i gh => do
      let s ← score[i]?
      let y ← self.label_[i]?
      let g ← store gh.1 i (100 * (s - y) / (1 + |s - y| / fair_c_value))
      let h ← store gh.2 i (100 * 1 / (1 + |s - y| / fair_c_value) ^ 2)
      pure (g, h)) (gradients, hessians)
  | some weights =>
    forLoop self.num_data_ (fun i gh => do
      let s ← score[i]?
      let y ← self.label_[i]?
      let w ← weights[i]?
      let g ← store gh.1 i (w * (s - y) / (1 + |s - y| / fair_c_value))
      let h ← store gh.2 i (w / (1 + |s - y| / fair_c_value) ^ 2)
      pure (g, h)) (gradients, hessians)

/-- `RegressionFairloss::GetSigmoid`. -/
def GetSigmoid [LinearOrderedField α] (_self : RegressionFairloss α) : α := -1

end RegressionFairloss

/-! ## Loops that store one pair of values per index -/

/-- The loop body that evaluates `f i` and stores its two components at index `i`
of the two buffers. -/
def storePair (f : Nat → Option (α × α)) (i : Nat) (gh : List α × List α) :
    Option (List α × List α) :=
  (f i).bind fun v => (store gh.1 i v.1).bind fun g => (store gh.2 i v.2).bind fun h =>
    some (g, h)

/-! ## Loop bodies, orders of execution, calls and single examples -/

/-- The loop over the indices listed in `order`, one iteration after the other, in the
order of the list: a schedule of the iterations of a `parallel for` loop. -/
def forOrder {σ : Type} (order : List Nat) (body : Nat → σ → Option σ) (s : σ) : Option σ :=
  match order with
  | [] => some s
  | i :: rest => (body i s).bind (forOrder rest body)

/-- The body of the loop of `RegressionL2loss::GetGradients` at index `i`, in the branch
selected by `weights_`. -/
def RegressionL2loss.iteration [LinearOrderedField α] (self : RegressionL2loss α)
    (score : List α) (i : Nat) (gh : List α × List α) : Option (List α × List α) :=
  match self.weights_ with
  | none => do
    let s ← score[i]?
    let y ← self.label_[i]?
    let g ← store gh.1 i (s - y)
    let h ← store gh.2 i 1
    pure (g, h)
  | some weights => do
    let s ← score[i]?
    let y ← self.label_[i]?
    let w ← weights[i]?
    let g ← store gh.1 i ((s - y) * w)
    let h ← store gh.2 i w
    pure (g, h)

/-- The body of the loop of `RegressionFairloss::GetGradients` at index `i`, in the branch
selected by `weights_`. -/
def RegressionFairloss.iteration [LinearOrderedField α] (self : RegressionFairloss α)
    (score : List α) (i : Nat) (gh : List α × List α) : Option (List α × List α) :=
  match self.weights_ with
  | none => do
    let s ← score[i]?
    let y ← self.label_[i]?
    let g ← store gh.1 i (100 * (s - y) / (1 + |s - y| / fair_c_value))
    let h ← store gh.2 i (100 * 1 / (1 + |s - y| / fair_c_value) ^ 2)
    pure (g, h)
  | some weights => do
    let s ← score[i]?
    let y ← self.label_[i]?
    let w ← weights[i]?
    let g ← store gh.1 i (w * (s - y) / (1 + |s - y| / fair_c_value))
    let h ← store gh.2 i (w / (1 + |s - y| / fair_c_value) ^ 2)
    pure (g, h)

/-- The memory a call `self.GetGradients(score, gradients, hessians)` can reach: the
object and the three arrays its arguments point to. -/
structure CallState (Obj α : Type) where
  /-- The object the method is called on. -/
  self : Obj
  /-- The array `score` points to. -/
  score : List α
  /-- The array `gradients` points to. -/
  gradients : List α
  /-- The array `hessians` points to. -/
  hessians : List α

/-- One call of `RegressionL2loss::GetGradients` as a step on the memory: the method is
`const` and `score` is a pointer to `const`, its only assignments are to `gradients[i]`
and `hessians[i]`. -/
def RegressionL2loss.GetGradientsCall [LinearOrderedField α]
    (m : CallState (RegressionL2loss α) α) : Option (CallState (RegressionL2loss α) α) :=
  (m.self.GetGradients m.score m.gradients m.hessians).map fun gh =>
    { m with gradients := gh.1, hessians := gh.2 }

/-- One call of `RegressionFairloss::GetGradients` as a step on the memory: the method is
`const` and `score` is a pointer to `const`, its only assignments are to `gradients[i]`
and `hessians[i]`. -/
def RegressionFairloss.GetGradientsCall [LinearOrderedField α]
    (m : CallState (RegressionFairloss α) α) : Option (CallState (RegressionFairloss α) α) :=
  (m.self.GetGradients m.score m.gradients m.hessians).map fun gh =>
    { m with gradients := gh.1, hessians := gh.2 }

/-- The gradient `RegressionL2loss::GetGradients` writes for one example with label `y`,
score `s` and weight `w` (`none` when weights are absent): the object is bound to the
one-example arrays and the call is run. -/
def l2_gradient [LinearOrderedField α] (w : Option α) (y s : α) : α :=
  match (RegressionL2loss.mk 1 [y] (w.map fun x => [x])).GetGradients [s] [0] [0] with
  | some (g, _) => g.getD 0 0
  | none => 0

/-- The hessian `RegressionL2loss::GetGradients` writes for one example with label `y`,
score `s` and weight `w` (`none` when weights are absent). -/
def l2_hessian [LinearOrderedField α] (w : Option α) (y s : α) : α :=
  match (RegressionL2loss.mk 1 [y] (w.map fun x => [x])).GetGradients [s] [0] [0] with
  | some (_, h) => h.getD 0 0
  | none => 0

/-- The gradient `RegressionFairloss::GetGradients` writes for one example with label `y`,
score `s` and weight `w` (`none` when weights are absent). -/
def fair_gradient [LinearOrderedField α] (w : Option α) (y s : α) : α :=
  match (RegressionFairloss.mk 1 [y] (w.map fun x => [x])).GetGradients [s] [0] [0] with
  | some (g, _) => g.getD 0 0
  | none => 0

/-- The hessian `RegressionFairloss::GetGradients` writes for one example with label `y`,
score `s` and weight `w` (`none` when weights are absent). -/
def fair_hessian [LinearOrderedField α] (w : Option α) (y s : α) : α :=
  match (RegressionFairloss.mk 1 [y] (w.map fun x => [x])).GetGradients [s] [0] [0] with
  | some (_, h) => h.getD 0 0
  | none => 0

/-- The loss the spec states for the squared-error objective, `L(s, y) = 1/2 * (s - y)^2`;
the source file has no loss function, only its derivatives, so this definition follows
the spec. -/
def l2_loss [LinearOrderedField α] (s y : α) : α := 1 / 2 * (s - y) ^ 2

/-! ## Lemmas on stores and loops -/

theorem store_eq_some {buf : List α} {i : Nat} (v : α) (hi : i < buf.length) :
    store buf i v = some (buf.set i v) := by
  simp [store, hi]

theorem forLoop_succ {σ : Type} (n : Nat) (body : Nat → σ → Option σ) (s : σ) :
    forLoop (n + 1) body s = (forLoop n body s).bind (body n) := rfl

/-- Two loop bodies that agree below `n` give the same loop. -/
theorem forLoop_congr {σ : Type} (n : Nat) (body body' : Nat → σ → Option σ)
    (h : ∀ i, i < n → ∀ s, body i s = body' i s) (s : σ) :
    forLoop n body s = forLoop n body' s := by
  induction n with
  | zero => rfl
  | succ k ih =>
    rw [forLoop_succ, forLoop_succ, ih (fun i hi => h i (Nat.lt_succ_of_lt hi))]
    cases forLoop k body' s with
    | none => rfl
    | some t => exact h k (Nat.lt_succ_self k) t

/-- A loop storing `f i` at every index `i < n` succeeds when `f` is defined below `n`
and both buffers have room; it keeps the lengths, leaves `f i` at every index below `n`
and leaves the other indices as they were. -/
theorem forLoop_storePair (f : Nat → Option (α × α)) (n : Nat) (g h : List α)
    (hg : n ≤ g.length) (hh : n ≤ h.length) (hf : ∀ i, i < n → ∃ v, f i = some v) :
    ∃ g' h', forLoop n (storePair f) (g, h) = some (g', h') ∧
      g'.length = g.length ∧ h'.length = h.length ∧
      (∀ i, i < n → ∀ v, f i = some v → g'[i]? = some v.1 ∧ h'[i]? = some v.2) ∧
      (∀ i, n ≤ i → g'[i]? = g[i]? ∧ h'[i]? = h[i]?) := by
  induction n with
  | zero =>
    exact ⟨g, h, rfl, rfl, rfl, fun i hi => absurd hi (Nat.not_lt_zero i), fun _ _ => ⟨rfl, rfl⟩⟩
  | succ k ih =>
    obtain ⟨g₁, h₁, hrun, hlg, hlh, hlow, hhigh⟩ :=
      ih (Nat.le_of_succ_le hg) (Nat.le_of_succ_le hh) (fun i hi => hf i (Nat.lt_succ_of_lt hi))
    obtain ⟨v, hv⟩ := hf k (Nat.lt_succ_self k)
    have hkg : k < g₁.length := by omega
    have hkh : k < h₁.length := by omega
    refine ⟨g₁.set k v.1, h₁.set k v.2, ?_, ?_, ?_, ?_, ?_⟩
    · rw [forLoop_succ, hrun]
      simp [storePair, hv, store_eq_some, hkg, hkh]
    · simp [hlg]
    · simp [hlh]
    · intro i hi u hu
      by_cases hik : i = k
      · subst hik
        rw [hv] at hu
        cases hu
        simp [hkg, hkh]
      · have hi' : i < k := by omega
        have := hlow i hi' u hu
        simp [List.getElem?_set_ne (Ne.symm hik), this]
    · intro i hi
      have hne : k ≠ i := by omega
      have := hhigh i (by omega)
      simp [List.getElem?_set_ne hne, this]

/-! ## The four loops as per-index stores -/

section bridge

variable [LinearOrderedField α]

/-- Two arrays of length `n` can both be read at every index below `n`. -/
theorem read_two (a b : List α) (n i : Nat) (ha : a.length = n) (hb : b.length = n)
    (hi : i < n) : a[i]? = some (a.getD i 0) ∧ b[i]? = some (b.getD i 0) := by
  have h1 : i < a.length := by omega
  have h2 : i < b.length := by omega
  simp [List.getD, List.getElem?_eq_getElem h1, List.getElem?_eq_getElem h2]

/-- The unweighted loop of `RegressionL2loss` stores one pair per index. -/
theorem l2_loop_none (self : RegressionL2loss α)
    (score gradients hessians : List α) (hw : self.weights_ = none) :
    self.GetGradients score gradients hessians =
      forLoop self.num_data_ (storePair fun i =>
        (score[i]?).bind fun s => (self.label_[i]?).bind fun y => some (s - y, 1))
        (gradients, hessians) := by
  simp only [RegressionL2loss.GetGradients, hw]
  apply forLoop_congr
  intro i _ gh
  cases hs : score[i]? <;> cases hy : self.label_[i]? <;> simp [storePair, hs, hy]

/-- The weighted loop of `RegressionL2loss` stores one pair per index. -/
theorem l2_loop_some (self : RegressionL2loss α)
    (score gradients hessians weights : List α) (hw : self.weights_ = some weights) :
    self.GetGradients score gradients hessians =
      forLoop self.num_data_ (storePair fun i =>
        (score[i]?).bind fun s => (self.label_[i]?).bind fun y => (weights[i]?).bind fun w =>
          some ((s - y) * w, w))
        (gradients, hessians) := by
  simp only [RegressionL2loss.GetGradients, hw]
  apply forLoop_congr
  intro i _ gh
  cases hs : score[i]? <;> cases hy : self.label_[i]? <;> cases hx : weights[i]? <;>
    simp [storePair, hs, hy, hx]

/-- The unweighted loop of `RegressionFairloss` stores one pair per index. -/
theorem fair_loop_none (self : RegressionFairloss α)
    (score gradients hessians : List α) (hw : self.weights_ = none) :
    self.GetGradients score gradients hessians =
      forLoop self.num_data_ (storePair fun i =>
        (score[i]?).bind fun s => (self.label_[i]?).bind fun y =>
          some (100 * (s - y) / (1 + |s - y| / 2), 100 / (1 + |s - y| / 2) ^ 2))
        (gradients, hessians) := by
  simp only [RegressionFairloss.GetGradients, hw]
  apply forLoop_congr
  intro i _ gh
  cases hs : score[i]? <;> cases hy : self.label_[i]? <;>
    simp [storePair, hs, hy, RegressionFairloss.fair_c_value]

/-- The weighted loop of `RegressionFairloss` stores one pair per index. -/
theorem fair_loop_some (self : RegressionFairloss α)
    (score gradients hessians weights : List α) (hw : self.weights_ = some weights) :
    self.GetGradients score gradients hessians =
      forLoop self.num_data_ (storePair fun i =>
        (score[i]?).bind fun s => (self.label_[i]?).bind fun y => (weights[i]?).bind fun w =>
          some (w * (s - y) / (1 + |s - y| / 2), w / (1 + |s - y| / 2) ^ 2))
        (gradients, hessians) := by
  simp only [RegressionFairloss.GetGradients, hw]
  apply forLoop_congr
  intro i _ gh
  cases hs : score[i]? <;> cases hy : self.label_[i]? <;> cases hx : weights[i]? <;>
    simp [storePair, hs, hy, hx, RegressionFairloss.fair_c_value]

/-- A loop storing a function of `score[i]` and `label[i]` at every index, on arrays
of length `n`. -/
theorem forLoop_two (F : α → α → α × α) (n : Nat) (score label g h : List α)
    (hscore : score.length = n) (hlabel : label.length = n)
    (hg : g.length = n) (hh : h.length = n) :
    ∃ g' h', forLoop n (storePair fun i =>
        (score[i]?).bind fun s => (label[i]?).bind fun y => some (F s y)) (g, h)
        = some (g', h') ∧ g'.length = n ∧ h'.length = n ∧
      ∀ i, i < n → ∃ s y, score[i]? = some s ∧ label[i]? = some y ∧
        g'[i]? = some (F s y).1 ∧ h'[i]? = some (F s y).2 := by
  obtain ⟨g', h', hrun, hlg, hlh, hlow, -⟩ := forLoop_storePair
    (fun i => (score[i]?).bind fun s => (label[i]?).bind fun y => some (F s y)) n g h
    (by omega) (by omega)
    (fun i hi => by
      obtain ⟨h1, h2⟩ := read_two score label n i hscore hlabel hi
      exact ⟨F (score.getD i 0) (label.getD i 0), by simp only [h1, h2, Option.some_bind]⟩)
  refine ⟨g', h', hrun, by omega, by omega, fun i hi => ?_⟩
  obtain ⟨h1, h2⟩ := read_two score label n i hscore hlabel hi
  exact ⟨_, _, h1, h2, hlow i hi _ (by simp only [h1, h2, Option.some_bind])⟩

/-- A loop storing a function of `score[i]`, `label[i]` and `weights[i]` at every index,
on arrays of length `n`. -/
theorem forLoop_three (F : α → α → α → α × α) (n : Nat) (score label weights g h : List α)
    (hscore : score.length = n) (hlabel : label.length = n) (hweights : weights.length = n)
    (hg : g.length = n) (hh : h.length = n) :
    ∃ g' h', forLoop n (storePair fun i =>
        (score[i]?).bind fun s => (label[i]?).bind fun y => (weights[i]?).bind fun w =>
          some (F s y w)) (g, h)
        = some (g', h') ∧ g'.length = n ∧ h'.length = n ∧
      ∀ i, i < n → ∃ s y w, score[i]? = some s ∧ label[i]? = some y ∧ weights[i]? = some w ∧
        g'[i]? = some (F s y w).1 ∧ h'[i]? = some (F s y w).2 := by
  obtain ⟨g', h', hrun, hlg, hlh, hlow, -⟩ := forLoop_storePair
    (fun i => (score[i]?).bind fun s => (label[i]?).bind fun y => (weights[i]?).bind fun w =>
      some (F s y w)) n g h
    (by omega) (by omega)
    (fun i hi => by
      obtain ⟨h1, h2⟩ := read_two score label n i hscore hlabel hi
      obtain ⟨h3, -⟩ := read_two weights label n i hweights hlabel hi
      exact ⟨F (score.getD i 0) (label.getD i 0) (weights.getD i 0),
        by simp only [h1, h2, h3, Option.some_bind]⟩)
  refine ⟨g', h', hrun, by omega, by omega, fun i hi => ?_⟩
  obtain ⟨h1, h2⟩ := read_two score label n i hscore hlabel hi
  obtain ⟨h3, -⟩ := read_two weights label n i hweights hlabel hi
  exact ⟨_, _, _, h1, h2, h3, hlow i hi _ (by simp only [h1, h2, h3, Option.some_bind])⟩

end bridge

/-! ## Formulas of the four loops -/

section formulas

variable [LinearOrderedField α]

/-- C1: `RegressionL2loss.GetGradients` without weights, on arrays of length `num_data`,
returns with `gradients[i] = score[i] - label[i]` and `hessians[i] = 1` at every index
`i < num_data`; on `score = [2]`, `label = [1/2]` it gives `gradients = [3/2]`,
`hessians = [1]`. -/
theorem l2_GetGradients_unweighted (self : RegressionL2loss α)
    (score gradients hessians : List α) (hw : self.weights_ = none)
    (hlabel : self.label_.length = self.num_data_) (hscore : score.length = self.num_data_)
    (hgrad : gradients.length = self.num_data_) (hhess : hessians.length = self.num_data_) :
    (∃ g h, self.GetGradients score gradients hessians = some (g, h) ∧
      g.length = self.num_data_ ∧ h.length = self.num_data_ ∧
      ∀ i, i < self.num_data_ → ∃ s y, score[i]? = some s ∧ self.label_[i]? = some y ∧
        g[i]? = some (s - y) ∧ h[i]? = some 1) ∧
    (∀ g0 h0 : ℚ, (RegressionL2loss.mk 1 [1 / 2] none).GetGradients [2] [g0] [h0]
      = some ([3 / 2], [1])) := by
  refine ⟨?_, fun g0 h0 => by norm_num [RegressionL2loss.GetGradients, forLoop, store]⟩
  rw [l2_loop_none self score gradients hessians hw]
  exact forLoop_two (fun s y => (s - y, 1)) _ score self.label_ gradients hessians
    hscore hlabel hgrad hhess

/-- Witness of C1 on two examples. -/
theorem l2_GetGradients_unweighted_witness :
    (∃ g h, (RegressionL2loss.mk 2 [1 / 2, (3 : ℚ)] none).GetGradients [2, 7] [0, 0] [0, 0]
        = some (g, h) ∧ g.length = 2 ∧ h.length = 2 ∧
      ∀ i, i < 2 → ∃ s y, [2, (7 : ℚ)][i]? = some s ∧ [1 / 2, (3 : ℚ)][i]? = some y ∧
        g[i]? = some (s - y) ∧ h[i]? = some 1) ∧
    (∀ g0 h0 : ℚ, (RegressionL2loss.mk 1 [1 / 2] none).GetGradients [2] [g0] [h0]
      = some ([3 / 2], [1])) :=
  l2_GetGradients_unweighted (RegressionL2loss.mk 2 [1 / 2, (3 : ℚ)] none)
    [2, 7] [0, 0] [0, 0] rfl rfl rfl rfl rfl

/-- C2: `RegressionL2loss.GetGradients` with weights, on arrays of length `num_data`,
returns with `gradients[i] = (score[i] - label[i]) * weight[i]` and
`hessians[i] = weight[i]` at every index `i < num_data`; on `score = [2]`,
`label = [1/2]`, `weight = [2]` it gives `gradients = [3]`, `hessians = [2]`. -/
theorem l2_GetGradients_weighted (self : RegressionL2loss α)
    (score gradients hessians weights : List α) (hw : self.weights_ = some weights)
    (hlabel : self.label_.length = self.num_data_) (hweights : weights.length = self.num_data_)
    (hscore : score.length = self.num_data_)
    (hgrad : gradients.length = self.num_data_) (hhess : hessians.length = self.num_data_) :
    (∃ g h, self.GetGradients score gradients hessians = some (g, h) ∧
      g.length = self.num_data_ ∧ h.length = self.num_data_ ∧
      ∀ i, i < self.num_data_ → ∃ s y w, score[i]? = some s ∧ self.label_[i]? = some y ∧
        weights[i]? = some w ∧ g[i]? = some ((s - y) * w) ∧ h[i]? = some w) ∧
    (∀ g0 h0 : ℚ, (RegressionL2loss.mk 1 [1 / 2] (some [2])).GetGradients [2] [g0] [h0]
      = some ([3], [2])) := by
  refine ⟨?_, fun g0 h0 => by norm_num [RegressionL2loss.GetGradients, forLoop, store]⟩
  rw [l2_loop_some self score gradients hessians weights hw]
  exact forLoop_three (fun s y w => ((s - y) * w, w)) _ score self.label_ weights
    gradients hessians hscore hlabel hweights hgrad hhess

/-- Witness of C2 on two examples. -/
theorem l2_GetGradients_weighted_witness :
    (∃ g h, (RegressionL2loss.mk 2 [1 / 2, (3 : ℚ)] (some [2, 5])).GetGradients
        [2, 7] [0, 0] [0, 0] = some (g, h) ∧ g.length = 2 ∧ h.length = 2 ∧
      ∀ i, i < 2 → ∃ s y w, [2, (7 : ℚ)][i]? = some s ∧ [1 / 2, (3 : ℚ)][i]? = some y ∧
        [2, (5 : ℚ)][i]? = some w ∧ g[i]? = some ((s - y) * w) ∧ h[i]? = some w) ∧
    (∀ g0 h0 : ℚ, (RegressionL2loss.mk 1 [1 / 2] (some [2])).GetGradients [2] [g0] [h0]
      = some ([3], [2])) :=
  l2_GetGradients_weighted (RegressionL2loss.mk 2 [1 / 2, (3 : ℚ)] (some [2, 5]))
    [2, 7] [0, 0] [0, 0] [2, 5] rfl rfl rfl rfl rfl rfl

/-- C3: `RegressionFairloss.GetGradients` without weights, on arrays of length `num_data`,
returns with `gradients[i] = 100 * d / (1 + |d| / 2)` and
`hessians[i] = 100 / (1 + |d| / 2) ^ 2` at every index `i < num_data`, where
`d = score[i] - label[i]`. -/
theorem fair_GetGradients_unweighted (self : RegressionFairloss α)
    (score gradients hessians : List α) (hw : self.weights_ = none)
    (hlabel : self.label_.length = self.num_data_) (hscore : score.length = self.num_data_)
    (hgrad : gradients.length = self.num_data_) (hhess : hessians.length = self.num_data_) :
    ∃ g h, self.GetGradients score gradients hessians = some (g, h) ∧
      g.length = self.num_data_ ∧ h.length = self.num_data_ ∧
      ∀ i, i < self.num_data_ → ∃ s y, score[i]? = some s ∧ self.label_[i]? = some y ∧
        g[i]? = some (100 * (s - y) / (1 + |s - y| / 2)) ∧
        h[i]? = some (100 / (1 + |s - y| / 2) ^ 2) := by
  rw [fair_loop_none self score gradients hessians hw]
  exact forLoop_two (fun s y => (100 * (s - y) / (1 + |s - y| / 2), 100 / (1 + |s - y| / 2) ^ 2))
    _ score self.label_ gradients hessians hscore hlabel hgrad hhess

/-- Witness of C3 on `score = [1, 5]`, `label = [0, 3]`. -/
theorem fair_GetGradients_unweighted_witness :
    ∃ g h, (RegressionFairloss.mk 2 [0, (3 : ℚ)] none).GetGradients [1, 5] [0, 0] [0, 0]
        = some (g, h) ∧ g.length = 2 ∧ h.length = 2 ∧
      ∀ i, i < 2 → ∃ s y, [1, (5 : ℚ)][i]? = some s ∧ [0, (3 : ℚ)][i]? = some y ∧
        g[i]? = some (100 * (s - y) / (1 + |s - y| / 2)) ∧
        h[i]? = some (100 / (1 + |s - y| / 2) ^ 2) :=
  fair_GetGradients_unweighted (RegressionFairloss.mk 2 [0, (3 : ℚ)] none)
    [1, 5] [0, 0] [0, 0] rfl rfl rfl rfl rfl

/-- C4: `RegressionFairloss.GetGradients` with weights, on arrays of length `num_data`,
returns with `gradients[i] = weight[i] * d / (1 + |d| / 2)` and
`hessians[i] = weight[i] / (1 + |d| / 2) ^ 2` at every index `i < num_data`, where
`d = score[i] - label[i]`. -/
theorem fair_GetGradients_weighted (self : RegressionFairloss α)
    (score gradients hessians weights : List α) (hw : self.weights_ = some weights)
    (hlabel : self.label_.length = self.num_data_) (hweights : weights.length = self.num_data_)
    (hscore : score.length = self.num_data_)
    (hgrad : gradients.length = self.num_data_) (hhess : hessians.length = self.num_data_) :
    ∃ g h, self.GetGradients score gradients hessians = some (g, h) ∧
      g.length = self.num_data_ ∧ h.length = self.num_data_ ∧
      ∀ i, i < self.num_data_ → ∃ s y w, score[i]? = some s ∧ self.label_[i]? = some y ∧
        weights[i]? = some w ∧
        g[i]? = some (w * (s - y) / (1 + |s - y| / 2)) ∧
        h[i]? = some (w / (1 + |s - y| / 2) ^ 2) := by
  rw [fair_loop_some self score gradients hessians weights hw]
  exact forLoop_three
    (fun s y w => (w * (s - y) / (1 + |s - y| / 2), w / (1 + |s - y| / 2) ^ 2))
    _ score self.label_ weights gradients hessians hscore hlabel hweights hgrad hhess

/-- Witness of C4 on `score = [1, 5]`, `label = [0, 3]`, `weight = [1, 0]`. -/
theorem fair_GetGradients_weighted_witness :
    ∃ g h, (RegressionFairloss.mk 2 [0, (3 : ℚ)] (some [1, 0])).GetGradients
        [1, 5] [0, 0] [0, 0] = some (g, h) ∧ g.length = 2 ∧ h.length = 2 ∧
      ∀ i, i < 2 → ∃ s y w, [1, (5 : ℚ)][i]? = some s ∧ [0, (3 : ℚ)][i]? = some y ∧
        [1, (0 : ℚ)][i]? = some w ∧
        g[i]? = some (w * (s - y) / (1 + |s - y| / 2)) ∧
        h[i]? = some (w / (1 + |s - y| / 2) ^ 2) :=
  fair_GetGradients_weighted (RegressionFairloss.mk 2 [0, (3 : ℚ)] (some [1, 0]))
    [1, 5] [0, 0] [0, 0] [1, 0] rfl rfl rfl rfl rfl rfl

end formulas

/-! ## Absent weights against uniform weights -/

section unit_weights

variable [LinearOrderedField α]

theorem replicate_one_get (n i : Nat) (hi : i < n) :
    (List.replicate n (1 : α))[i]? = some 1 := by
  simp [List.getElem?_replicate, hi]

/-- C5 (as stated, refuted): on `score = [1]`, `label = [0]` the unweighted
`RegressionFairloss.GetGradients` gives `gradients = [200/3]`, `hessians = [400/9]`,
while with the weight array `[1]` it gives `gradients = [2/3]`, `hessians = [4/9]`. -/
theorem fair_absent_weights_ne_unit_weights :
    (RegressionFairloss.mk 1 [(0 : ℚ)] none).GetGradients [1] [0] [0]
      = some ([200 / 3], [400 / 9]) ∧
    (RegressionFairloss.mk 1 [(0 : ℚ)] (some (List.replicate 1 1))).GetGradients [1] [0] [0]
      = some ([2 / 3], [4 / 9]) ∧
    (RegressionFairloss.mk 1 [(0 : ℚ)] none).GetGradients [1] [0] [0] ≠
      (RegressionFairloss.mk 1 [(0 : ℚ)] (some (List.replicate 1 1))).GetGradients [1] [0] [0] := by
  have h1 : (RegressionFairloss.mk 1 [(0 : ℚ)] none).GetGradients [1] [0] [0]
      = some ([200 / 3], [400 / 9]) := by
    norm_num [RegressionFairloss.GetGradients, forLoop, store, RegressionFairloss.fair_c_value]
  have h2 : (RegressionFairloss.mk 1 [(0 : ℚ)] (some (List.replicate 1 1))).GetGradients
      [1] [0] [0] = some ([2 / 3], [4 / 9]) := by
    norm_num [RegressionFairloss.GetGradients, forLoop, store, RegressionFairloss.fair_c_value]
  refine ⟨h1, h2, ?_⟩
  rw [h1, h2]
  norm_num

/-- C5 (amended): on arrays of length `num_data`, `RegressionFairloss.GetGradients` bound
with absent weights returns exactly the gradients and hessians it returns when bound with
a weight array whose every entry is `100` (not `1`): at every index `i < num_data` both
runs hold `100 * d / (1 + |d| / 2)` and `100 / (1 + |d| / 2) ^ 2`, where
`d = score[i] - label[i]`. -/
theorem fair_absent_weights_as_hundred (n : Nat)
    (label score gradients hessians weights : List α)
    (hlabel : label.length = n) (hscore : score.length = n)
    (hgrad : gradients.length = n) (hhess : hessians.length = n)
    (hweights : weights.length = n) (hall : ∀ w, w ∈ weights → w = 100) :
    ∃ g h,
      (RegressionFairloss.mk n label none).GetGradients score gradients hessians
        = some (g, h) ∧
      (RegressionFairloss.mk n label (some weights)).GetGradients score gradients hessians
        = some (g, h) ∧
      g.length = n ∧ h.length = n ∧
      ∀ i, i < n → ∃ s y, score[i]? = some s ∧ label[i]? = some y ∧
        g[i]? = some (100 * (s - y) / (1 + |s - y| / 2)) ∧
        h[i]? = some (100 / (1 + |s - y| / 2) ^ 2) := by
  obtain ⟨g, h, hrun, hlg, hlh, hval⟩ := forLoop_two
    (fun s y => (100 * (s - y) / (1 + |s - y| / 2), 100 / (1 + |s - y| / 2) ^ 2))
    n score label gradients hessians hscore hlabel hgrad hhess
  refine ⟨g, h, ?_, ?_, hlg, hlh, hval⟩
  · rw [fair_loop_none _ score gradients hessians rfl]
    exact hrun
  · rw [fair_loop_some _ score gradients hessians weights rfl, ← hrun]
    apply forLoop_congr
    intro i hi gh
    obtain ⟨hw, -⟩ := read_two weights label n i hweights hlabel hi
    rw [hall _ (List.getElem?_mem hw)] at hw
    simp only [storePair, hw, Option.some_bind]

/-- Witness of C5 (amended) on `score = [1, 5]`, `label = [0, 3]`, weights `[100, 100]`. -/
theorem fair_absent_weights_as_hundred_witness :
    ∃ g h,
      (RegressionFairloss.mk 2 [0, (3 : ℚ)] none).GetGradients [1, 5] [0, 0] [0, 0]
        = some (g, h) ∧
      (RegressionFairloss.mk 2 [0, (3 : ℚ)] (some [100, 100])).GetGradients
        [1, 5] [0, 0] [0, 0] = some (g, h) ∧
      g.length = 2 ∧ h.length = 2 ∧
      ∀ i, i < 2 → ∃ s y, [1, (5 : ℚ)][i]? = some s ∧ [0, (3 : ℚ)][i]? = some y ∧
        g[i]? = some (100 * (s - y) / (1 + |s - y| / 2)) ∧
        h[i]? = some (100 / (1 + |s - y| / 2) ^ 2) :=
  fair_absent_weights_as_hundred 2 [0, (3 : ℚ)] [1, 5] [0, 0] [0, 0] [100, 100]
    rfl rfl rfl rfl rfl (fun w hw => by simpa using hw)

/-- C6: on arrays of length `num_data`, `RegressionL2loss.GetGradients` bound with absent
weights and bound with the weight array whose entries are all `1` return the same
gradients and hessians. -/
theorem l2_absent_weights_eq_unit_weights (n : Nat)
    (label score gradients hessians : List α)
    (hlabel : label.length = n) (hscore : score.length = n)
    (hgrad : gradients.length = n) (hhess : hessians.length = n) :
    ∃ g h,
      (RegressionL2loss.mk n label none).GetGradients score gradients hessians
        = some (g, h) ∧
      (RegressionL2loss.mk n label (some (List.replicate n 1))).GetGradients
        score gradients hessians = some (g, h) ∧
      g.length = n ∧ h.length = n := by
  obtain ⟨g, h, hrun, hlg, hlh, -⟩ := forLoop_two (fun s y => (s - y, 1))
    n score label gradients hessians hscore hlabel hgrad hhess
  refine ⟨g, h, ?_, ?_, hlg, hlh⟩
  · rw [l2_loop_none _ score gradients hessians rfl]
    exact hrun
  · rw [l2_loop_some _ score gradients hessians (List.replicate n 1) rfl, ← hrun]
    apply forLoop_congr
    intro i hi gh
    simp only [storePair, replicate_one_get n i hi, Option.some_bind, mul_one]

/-- Witness of C6 on `score = [2, 7]`, `label = [1/2, 3]`. -/
theorem l2_absent_weights_eq_unit_weights_witness :
    ∃ g h,
      (RegressionL2loss.mk 2 [1 / 2, (3 : ℚ)] none).GetGradients [2, 7] [0, 0] [0, 0]
        = some (g, h) ∧
      (RegressionL2loss.mk 2 [1 / 2, (3 : ℚ)] (some (List.replicate 2 1))).GetGradients
        [2, 7] [0, 0] [0, 0] = some (g, h) ∧
      g.length = 2 ∧ h.length = 2 :=
  l2_absent_weights_eq_unit_weights 2 [1 / 2, (3 : ℚ)] [2, 7] [0, 0] [0, 0] rfl rfl rfl rfl

end unit_weights

/-! ## The denominator and the range of the Fair hessian -/

section ranges

variable [LinearOrderedField α]

/-- The denominator `1 + |d| / 2` of the Fair loss is at least `1`. -/
theorem fair_denominator_ge_one (d : α) : 1 ≤ 1 + |d| / 2 := by
  have h : 0 ≤ |d| / 2 := div_nonneg (abs_nonneg d) (by norm_num)
  linarith

theorem fair_denominator_pos (d : α) : 0 < 1 + |d| / 2 :=
  lt_of_lt_of_le one_pos (fair_denominator_ge_one d)

theorem fair_denominator_sq_ge_one (d : α) : 1 ≤ (1 + |d| / 2) ^ 2 :=
  one_le_pow₀ (fair_denominator_ge_one d)

theorem fair_denominator_sq_pos (d : α) : 0 < (1 + |d| / 2) ^ 2 :=
  lt_of_lt_of_le one_pos (fair_denominator_sq_ge_one d)

/-- C9 (as stated, refuted): with `score = [0]`, `label = [0]` and the non-negative weight
array `[0]`, `RegressionFairloss.GetGradients` writes the hessian `0`, which is not in the
interval `(0, weight[0]] = (0, 0]`. -/
theorem fair_hessian_zero_weight_outside_range :
    (RegressionFairloss.mk 1 [(0 : ℚ)] (some [0])).GetGradients [0] [0] [0]
      = some ([0], [0]) ∧
    ∃ g h v w, (RegressionFairloss.mk 1 [(0 : ℚ)] (some [0])).GetGradients [0] [0] [0]
      = some (g, h) ∧ h[0]? = some v ∧ [(0 : ℚ)][0]? = some w ∧ 0 ≤ w ∧ ¬ (0 < v ∧ v ≤ w) := by
  have h1 : (RegressionFairloss.mk 1 [(0 : ℚ)] (some [0])).GetGradients [0] [0] [0]
      = some ([0], [0]) := by
    norm_num [RegressionFairloss.GetGradients, forLoop, store, RegressionFairloss.fair_c_value]
  exact ⟨h1, [0], [0], 0, 0, h1, rfl, rfl, le_refl 0, fun h => lt_irrefl 0 h.1⟩

/-- C9 (amended): on arrays of length `num_data`, at every index `i < num_data` the
denominator `1 + |score[i] - label[i]| / 2` is at least `1`; without weights the hessian
written by `RegressionFairloss.GetGradients` lies in the closed interval `[0, 100]`; with
weights present it lies in `[0, weight[i]]` for every non-negative `weight[i]`, and it is
`0` when `weight[i] = 0`. -/
theorem fair_hessian_bounds (n : Nat) (label score gradients hessians : List α)
    (hlabel : label.length = n) (hscore : score.length = n)
    (hgrad : gradients.length = n) (hhess : hessians.length = n) :
    (∀ i, i < n → ∃ s y, score[i]? = some s ∧ label[i]? = some y ∧
      1 ≤ 1 + |s - y| / RegressionFairloss.fair_c_value) ∧
    (∃ g h, (RegressionFairloss.mk n label none).GetGradients score gradients hessians
        = some (g, h) ∧ h.length = n ∧
      ∀ i, i < n → ∃ v, h[i]? = some v ∧ 0 ≤ v ∧ v ≤ 100) ∧
    (∀ weights : List α, weights.length = n →
      ∃ g h, (RegressionFairloss.mk n label (some weights)).GetGradients score gradients
        hessians = some (g, h) ∧ h.length = n ∧
      ∀ i, i < n → ∃ v w, h[i]? = some v ∧ weights[i]? = some w ∧
        (0 ≤ w → 0 ≤ v ∧ v ≤ w) ∧ (w = 0 → v = 0)) := by
  refine ⟨fun i hi => ?_, ?_, fun weights hweights => ?_⟩
  · obtain ⟨hs, hy⟩ := read_two score label n i hscore hlabel hi
    exact ⟨_, _, hs, hy, fair_denominator_ge_one _⟩
  · obtain ⟨g, h, hrun, -, hlh, hval⟩ := forLoop_two
      (fun s y => (100 * (s - y) / (1 + |s - y| / 2), 100 / (1 + |s - y| / 2) ^ 2))
      n score label gradients hessians hscore hlabel hgrad hhess
    refine ⟨g, h, ?_, hlh, fun i hi => ?_⟩
    · rw [fair_loop_none _ score gradients hessians rfl]
      exact hrun
    · obtain ⟨s, y, -, -, -, hhi⟩ := hval i hi
      exact ⟨_, hhi, div_nonneg (by norm_num) (le_of_lt (fair_denominator_sq_pos (s - y))),
        div_le_self (by norm_num) (fair_denominator_sq_ge_one (s - y))⟩
  · obtain ⟨g, h, hrun, -, hlh, hval⟩ := forLoop_three
      (fun s y w => (w * (s - y) / (1 + |s - y| / 2), w / (1 + |s - y| / 2) ^ 2))
      n score label weights gradients hessians hscore hlabel hweights hgrad hhess
    refine ⟨g, h, ?_, hlh, fun i hi => ?_⟩
    · rw [fair_loop_some _ score gradients hessians weights rfl]
      exact hrun
    · obtain ⟨s, y, w, -, -, hw, -, hhi⟩ := hval i hi
      refine ⟨_, w, hhi, hw, fun h0 => ?_, fun h0 => ?_⟩
      · exact ⟨div_nonneg h0 (le_of_lt (fair_denominator_sq_pos (s - y))),
          div_le_self h0 (fair_denominator_sq_ge_one (s - y))⟩
      · simp [h0]

/-- Witness of C9 (amended) on `score = [1, 5]`, `label = [0, 3]`, also with the weights
`[4, 0]`. -/
theorem fair_hessian_bounds_witness :
    ((∀ i, i < 2 → ∃ s y, [1, (5 : ℚ)][i]? = some s ∧ [0, (3 : ℚ)][i]? = some y ∧
      1 ≤ 1 + |s - y| / RegressionFairloss.fair_c_value) ∧
    (∃ g h, (RegressionFairloss.mk 2 [0, (3 : ℚ)] none).GetGradients [1, 5] [0, 0] [0, 0]
        = some (g, h) ∧ h.length = 2 ∧
      ∀ i, i < 2 → ∃ v, h[i]? = some v ∧ 0 ≤ v ∧ v ≤ 100) ∧
    (∀ weights : List ℚ, weights.length = 2 →
      ∃ g h, (RegressionFairloss.mk 2 [0, (3 : ℚ)] (some weights)).GetGradients [1, 5]
        [0, 0] [0, 0] = some (g, h) ∧ h.length = 2 ∧
      ∀ i, i < 2 → ∃ v w, h[i]? = some v ∧ weights[i]? = some w ∧
        (0 ≤ w → 0 ≤ v ∧ v ≤ w) ∧ (w = 0 → v = 0))) ∧
    (∃ g h, (RegressionFairloss.mk 2 [0, (3 : ℚ)] (some [4, 0])).GetGradients [1, 5]
        [0, 0] [0, 0] = some (g, h) ∧ h.length = 2 ∧
      ∀ i, i < 2 → ∃ v w, h[i]? = some v ∧ [4, (0 : ℚ)][i]? = some w ∧
        (0 ≤ w → 0 ≤ v ∧ v ≤ w) ∧ (w = 0 → v = 0)) :=
  ⟨fair_hessian_bounds 2 [0, (3 : ℚ)] [1, 5] [0, 0] [0, 0] rfl rfl rfl rfl,
    (fair_hessian_bounds 2 [0, (3 : ℚ)] [1, 5] [0, 0] [0, 0] rfl rfl rfl rfl).2.2 [4, 0] rfl⟩

end ranges

/-! ## Single examples -/

section single

variable [LinearOrderedField α]

theorem l2_gradient_none (y s : α) : l2_gradient none y s = s - y := by
  simp [l2_gradient, RegressionL2loss.GetGradients, forLoop, store]

theorem l2_hessian_none (y s : α) : l2_hessian none y s = 1 := by
  simp [l2_hessian, RegressionL2loss.GetGradients, forLoop, store]

theorem l2_gradient_some (w y s : α) : l2_gradient (some w) y s = (s - y) * w := by
  simp [l2_gradient, RegressionL2loss.GetGradients, forLoop, store]

theorem l2_hessian_some (w y s : α) : l2_hessian (some w) y s = w := by
  simp [l2_hessian, RegressionL2loss.GetGradients, forLoop, store]

theorem fair_gradient_none (y s : α) :
    fair_gradient none y s = 100 * (s - y) / (1 + |s - y| / 2) := by
  simp [fair_gradient, RegressionFairloss.GetGradients, forLoop, store,
    RegressionFairloss.fair_c_value]

theorem fair_hessian_none (y s : α) :
    fair_hessian none y s = 100 / (1 + |s - y| / 2) ^ 2 := by
  simp [fair_hessian, RegressionFairloss.GetGradients, forLoop, store,
    RegressionFairloss.fair_c_value]

theorem fair_gradient_some (w y s : α) :
    fair_gradient (some w) y s = w * (s - y) / (1 + |s - y| / 2) := by
  simp [fair_gradient, RegressionFairloss.GetGradients, forLoop, store,
    RegressionFairloss.fair_c_value]

theorem fair_hessian_some (w y s : α) :
    fair_hessian (some w) y s = w / (1 + |s - y| / 2) ^ 2 := by
  simp [fair_hessian, RegressionFairloss.GetGradients, forLoop, store,
    RegressionFairloss.fair_c_value]

end single

/-! ## Symmetry, the sentinel, binding, and the multiplier of the Fair loss -/

section relations

theorem replicate_get (c : α) (n i : Nat) (hi : i < n) :
    (List.replicate n c)[i]? = some c := by
  simp [List.getElem?_replicate, hi]

variable [LinearOrderedField α]

/-- C11: without weights, on arrays of length `num_data`, if at every index `i < num_data`
the first score is `label[i] + d` and the second is `label[i] - d`, the two runs of
`RegressionFairloss.GetGradients` return equal hessians and opposite gradients at every
index; for label `3`, the scores `5` and `1` give the gradients `100` and `-100` and the
hessian `25` in both runs. -/
theorem fair_symmetry (n : Nat) (label score1 score2 gradients hessians : List α)
    (hlabel : label.length = n) (hscore1 : score1.length = n) (hscore2 : score2.length = n)
    (hgrad : gradients.length = n) (hhess : hessians.length = n)
    (hsym : ∀ i, i < n → ∃ y d, label[i]? = some y ∧ score1[i]? = some (y + d) ∧
      score2[i]? = some (y - d)) :
    (∃ g1 h1 g2 h2,
      (RegressionFairloss.mk n label none).GetGradients score1 gradients hessians
        = some (g1, h1) ∧
      (RegressionFairloss.mk n label none).GetGradients score2 gradients hessians
        = some (g2, h2) ∧
      ∀ i, i < n → ∃ a b, g1[i]? = some a ∧ g2[i]? = some (-a) ∧ |a| = |(-a)| ∧
        h1[i]? = some b ∧ h2[i]? = some b) ∧
    ((RegressionFairloss.mk 1 [(3 : ℚ)] none).GetGradients [5] [0] [0]
        = some ([100], [25]) ∧
      (RegressionFairloss.mk 1 [(3 : ℚ)] none).GetGradients [1] [0] [0]
        = some ([-100], [25])) := by
  refine ⟨?_, ?_, ?_⟩
  · obtain ⟨g1, h1, hrun1, -, -, hval1⟩ := forLoop_two
      (fun s y => (100 * (s - y) / (1 + |s - y| / 2), 100 / (1 + |s - y| / 2) ^ 2))
      n score1 label gradients hessians hscore1 hlabel hgrad hhess
    obtain ⟨g2, h2, hrun2, -, -, hval2⟩ := forLoop_two
      (fun s y => (100 * (s - y) / (1 + |s - y| / 2), 100 / (1 + |s - y| / 2) ^ 2))
      n score2 label gradients hessians hscore2 hlabel hgrad hhess
    refine ⟨g1, h1, g2, h2, ?_, ?_, fun i hi => ?_⟩
    · rw [fair_loop_none _ score1 gradients hessians rfl]
      exact hrun1
    · rw [fair_loop_none _ score2 gradients hessians rfl]
      exact hrun2
    · obtain ⟨y, d, hy, hs1, hs2⟩ := hsym i hi
      obtain ⟨s1, y1, hs1', hy1, hg1, hh1⟩ := hval1 i hi
      obtain ⟨s2, y2, hs2', hy2, hg2, hh2⟩ := hval2 i hi
      rw [hs1] at hs1'
      rw [hs2] at hs2'
      rw [hy] at hy1 hy2
      cases hs1'
      cases hs2'
      cases hy1
      cases hy2
      refine ⟨_, _, hg1, ?_, (abs_neg _).symm, hh1, ?_⟩
      · rw [hg2]
        simp only [add_sub_cancel_left, sub_sub_cancel_left, abs_neg, mul_neg, neg_div]
      · rw [hh2]
        simp only [add_sub_cancel_left, sub_sub_cancel_left, abs_neg]
  · norm_num [RegressionFairloss.GetGradients, forLoop, store, RegressionFairloss.fair_c_value]
  · norm_num [RegressionFairloss.GetGradients, forLoop, store, RegressionFairloss.fair_c_value]

/-- Witness of C11 on label `[3, 0]` with the scores `[5, 1]` and `[1, -1]`. -/
theorem fair_symmetry_witness :
    (∃ g1 h1 g2 h2,
      (RegressionFairloss.mk 2 [3, (0 : ℚ)] none).GetGradients [5, 1] [0, 0] [0, 0]
        = some (g1, h1) ∧
      (RegressionFairloss.mk 2 [3, (0 : ℚ)] none).GetGradients [1, -1] [0, 0] [0, 0]
        = some (g2, h2) ∧
      ∀ i, i < 2 → ∃ a b : ℚ, g1[i]? = some a ∧ g2[i]? = some (-a) ∧ |a| = |(-a)| ∧
        h1[i]? = some b ∧ h2[i]? = some b) ∧
    ((RegressionFairloss.mk 1 [(3 : ℚ)] none).GetGradients [5] [0] [0]
        = some ([100], [25]) ∧
      (RegressionFairloss.mk 1 [(3 : ℚ)] none).GetGradients [1] [0] [0]
        = some ([-100], [25])) :=
  fair_symmetry 2 [3, (0 : ℚ)] [5, 1] [1, -1] [0, 0] [0, 0] rfl rfl rfl rfl rfl
    (fun i hi => by
      interval_cases i
      · exact ⟨3, 2, by norm_num⟩
      · exact ⟨0, 1, by norm_num⟩)

/-- C12: for both `RegressionL2loss` and `RegressionFairloss`, in every state of the
object, also after an `Init` with any metadata and count, `GetSigmoid` returns `-1`,
which is negative. -/
theorem GetSigmoid_sentinel (l2 : RegressionL2loss α) (fair : RegressionFairloss α)
    (metadata : Metadata α) (num_data : Nat) :
    l2.GetSigmoid = -1 ∧ fair.GetSigmoid = -1 ∧
    (l2.Init metadata num_data).GetSigmoid = -1 ∧
    (fair.Init metadata num_data).GetSigmoid = -1 ∧
    l2.GetSigmoid < 0 ∧ fair.GetSigmoid < 0 := by
  refine ⟨rfl, rfl, rfl, rfl, ?_, ?_⟩
  · show (-1 : α) < 0
    exact neg_neg_of_pos one_pos
  · show (-1 : α) < 0
    exact neg_neg_of_pos one_pos

/-- C15: for both classes, after `Init(metadata, n)` the members are exactly
`num_data_ = n`, `label_ = metadata.label()`, `weights_ = metadata.weights()`, whatever
the object held before; `Init(m1, n1)` followed by `Init(m2, n2)` leaves the same object
as `Init(m2, n2)` alone, and every `GetGradients` after it is the one of the object
bound to `m2`, `n2`. -/
theorem Init_rebinds (l2 l2' : RegressionL2loss α) (fair fair' : RegressionFairloss α)
    (m1 m2 : Metadata α) (n1 n2 : Nat) :
    ((l2.Init m2 n2).num_data_ = n2 ∧ (l2.Init m2 n2).label_ = m2.label ∧
      (l2.Init m2 n2).weights_ = m2.weights ∧
      l2.Init m2 n2 = l2'.Init m2 n2 ∧
      (l2.Init m1 n1).Init m2 n2 = l2.Init m2 n2 ∧
      ∀ score gradients hessians,
        ((l2.Init m1 n1).Init m2 n2).GetGradients score gradients hessians =
          (RegressionL2loss.mk n2 m2.label m2.weights).GetGradients score gradients hessians) ∧
    ((fair.Init m2 n2).num_data_ = n2 ∧ (fair.Init m2 n2).label_ = m2.label ∧
      (fair.Init m2 n2).weights_ = m2.weights ∧
      fair.Init m2 n2 = fair'.Init m2 n2 ∧
      (fair.Init m1 n1).Init m2 n2 = fair.Init m2 n2 ∧
      ∀ score gradients hessians,
        ((fair.Init m1 n1).Init m2 n2).GetGradients score gradients hessians =
          (RegressionFairloss.mk n2 m2.label m2.weights).GetGradients
            score gradients hessians) :=
  ⟨⟨rfl, rfl, rfl, rfl, rfl, fun _ _ _ => rfl⟩, ⟨rfl, rfl, rfl, rfl, rfl, fun _ _ _ => rfl⟩⟩

/-- C17: on arrays of length `num_data`, `RegressionFairloss.GetGradients` bound with
absent weights and bound with the weight array whose entries are all `100` return the
same gradients and hessians. -/
theorem fair_absent_weights_eq_hundred_weights (n : Nat)
    (label score gradients hessians : List α)
    (hlabel : label.length = n) (hscore : score.length = n)
    (hgrad : gradients.length = n) (hhess : hessians.length = n) :
    ∃ g h,
      (RegressionFairloss.mk n label none).GetGradients score gradients hessians
        = some (g, h) ∧
      (RegressionFairloss.mk n label (some (List.replicate n 100))).GetGradients
        score gradients hessians = some (g, h) ∧
      g.length = n ∧ h.length = n := by
  obtain ⟨g, h, hrun, hlg, hlh, -⟩ := forLoop_two
    (fun s y => (100 * (s - y) / (1 + |s - y| / 2), 100 / (1 + |s - y| / 2) ^ 2))
    n score label gradients hessians hscore hlabel hgrad hhess
  refine ⟨g, h, ?_, ?_, hlg, hlh⟩
  · rw [fair_loop_none _ score gradients hessians rfl]
    exact hrun
  · rw [fair_loop_some _ score gradients hessians (List.replicate n 100) rfl, ← hrun]
    apply forLoop_congr
    intro i hi gh
    simp only [storePair, replicate_get (100 : α) n i hi, Option.some_bind]

/-- Witness of C17 on `score = [1, 5]`, `label = [0, 3]`. -/
theorem fair_absent_weights_eq_hundred_weights_witness :
    ∃ g h,
      (RegressionFairloss.mk 2 [0, (3 : ℚ)] none).GetGradients [1, 5] [0, 0] [0, 0]
        = some (g, h) ∧
      (RegressionFairloss.mk 2 [0, (3 : ℚ)] (some (List.replicate 2 100))).GetGradients
        [1, 5] [0, 0] [0, 0] = some (g, h) ∧
      g.length = 2 ∧ h.length = 2 :=
  fair_absent_weights_eq_hundred_weights 2 [0, (3 : ℚ)] [1, 5] [0, 0] [0, 0] rfl rfl rfl rfl

end relations

/-! ## Orders of execution -/

section orders

theorem forOrder_append {σ : Type} (l1 l2 : List Nat) (body : Nat → σ → Option σ) (s : σ) :
    forOrder (l1 ++ l2) body s = (forOrder l1 body s).bind (forOrder l2 body) := by
  induction l1 generalizing s with
  | nil => rfl
  | cons i rest ih =>
    show (body i s).bind (forOrder (rest ++ l2) body) = _
    cases hb : body i s with
    | none => simp [forOrder, hb]
    | some t => simp [forOrder, hb, ih]

/-- The sequential loop runs the indices in the order `0, 1, ..., n - 1`. -/
theorem forLoop_eq_forOrder {σ : Type} (n : Nat) (body : Nat → σ → Option σ) (s : σ) :
    forLoop n body s = forOrder (List.range n) body s := by
  induction n with
  | zero => rfl
  | succ k ih =>
    rw [forLoop_succ, List.range_succ, forOrder_append, ih]
    congr 1
    funext t
    cases hb : body k t <;> simp [forOrder, hb]

/-- Iterations that commute pairwise can be run in any order. -/
theorem forOrder_perm {σ : Type} (body : Nat → σ → Option σ)
    (hcomm : ∀ i j s, (body i s).bind (body j) = (body j s).bind (body i))
    {l1 l2 : List Nat} (hp : l1.Perm l2) (s : σ) :
    forOrder l1 body s = forOrder l2 body s := by
  induction hp generalizing s with
  | nil => rfl
  | cons x _ ih =>
    show (body x s).bind _ = (body x s).bind _
    congr 1
    funext t
    exact ih t
  | swap x y l =>
    show (body y s).bind (fun t => (body x t).bind (forOrder l body)) =
      (body x s).bind (fun t => (body y t).bind (forOrder l body))
    rw [← Option.bind_assoc, ← Option.bind_assoc, hcomm y x s]
  | trans _ _ ih1 ih2 => rw [ih1, ih2]

/-- Two stores of pairs at any two indices commute. -/
theorem storePair_comm (f : Nat → Option (α × α)) (i j : Nat) (gh : List α × List α) :
    (storePair f i gh).bind (storePair f j) = (storePair f j gh).bind (storePair f i) := by
  obtain ⟨g, h⟩ := gh
  by_cases hij : i = j
  · subst hij
    rfl
  · cases hfi : f i <;> cases hfj : f j <;>
      by_cases hig : i < g.length <;> by_cases hih : i < h.length <;>
      by_cases hjg : j < g.length <;> by_cases hjh : j < h.length <;>
      simp [storePair, store, hfi, hfj, hig, hih, hjg, hjh, List.set_comm _ _ _ hij]

/-- Agreement on the presence of weights and on `weight[i]`, as one equation. -/
theorem weight_at_eq (weights1 weights2 : Option (List α)) (i : Nat)
    (hpresent : weights1.isSome = weights2.isSome)
    (hweight : ∀ ws1 ws2, weights1 = some ws1 → weights2 = some ws2 → ws1[i]? = ws2[i]?) :
    (weights1.bind fun ws => ws[i]?) = (weights2.bind fun ws => ws[i]?) := by
  cases weights1 with
  | none =>
    cases weights2 with
    | none => rfl
    | some ws2 => simp at hpresent
  | some ws1 =>
    cases weights2 with
    | none => simp at hpresent
    | some ws2 => exact hweight ws1 ws2 rfl rfl

end orders

/-! ## Runs on arrays of the bound length -/

section runs

variable [LinearOrderedField α]

/-- `RegressionL2loss.GetGradients` is its loop of iterations. -/
theorem l2_GetGradients_eq_iteration (self : RegressionL2loss α) (score gradients hessians : List α) :
    self.GetGradients score gradients hessians =
      forLoop self.num_data_ (self.iteration score) (gradients, hessians) := by
  obtain ⟨n, label, weights⟩ := self
  cases weights <;> rfl

/-- Every iteration of `RegressionL2loss.GetGradients` stores one pair that depends on the
index only. -/
theorem l2_iteration_storePair (self : RegressionL2loss α) (score : List α) :
    ∃ f, ∀ i gh, self.iteration score i gh = storePair f i gh := by
  obtain ⟨n, label, weights⟩ := self
  cases weights with
  | none =>
    refine ⟨fun i => (score[i]?).bind fun s => (label[i]?).bind fun y =>
      some (s - y, 1), fun i gh => ?_⟩
    cases hs : score[i]? <;> cases hy : label[i]? <;>
      simp [RegressionL2loss.iteration, storePair, hs, hy, RegressionFairloss.fair_c_value]
  | some ws =>
    refine ⟨fun i => (score[i]?).bind fun s => (label[i]?).bind fun y =>
      (ws[i]?).bind fun w => some ((s - y) * w, w), fun i gh => ?_⟩
    cases hs : score[i]? <;> cases hy : label[i]? <;> cases hx : ws[i]? <;>
      simp [RegressionL2loss.iteration, storePair, hs, hy, hx, RegressionFairloss.fair_c_value]

/-- On arrays of length `n`, `RegressionL2loss.GetGradients` returns, keeps the lengths of the
buffers, and leaves at every index below `n` the values of the single example at that
index. -/
theorem l2_run (n : Nat) (label score gradients hessians : List α)
    (weights : Option (List α))
    (hlabel : label.length = n) (hscore : score.length = n)
    (hgrad : gradients.length = n) (hhess : hessians.length = n)
    (hweights : ∀ ws, weights = some ws → ws.length = n) :
    ∃ g h, (RegressionL2loss.mk n label weights).GetGradients score gradients hessians
        = some (g, h) ∧ g.length = n ∧ h.length = n ∧
      ∀ i, i < n → ∃ s y, score[i]? = some s ∧ label[i]? = some y ∧
        (∀ ws, weights = some ws → ∃ w, ws[i]? = some w) ∧
        g[i]? = some (l2_gradient (weights.bind fun ws => ws[i]?) y s) ∧
        h[i]? = some (l2_hessian (weights.bind fun ws => ws[i]?) y s) := by
  cases weights with
  | none =>
    obtain ⟨g, h, hrun, hlg, hlh, hval⟩ := forLoop_two (fun s y => (s - y, 1))
      n score label gradients hessians hscore hlabel hgrad hhess
    refine ⟨g, h, ?_, hlg, hlh, fun i hi => ?_⟩
    · rw [l2_loop_none _ score gradients hessians rfl]
      exact hrun
    · obtain ⟨s, y, hs, hy, hgi, hhi⟩ := hval i hi
      refine ⟨s, y, hs, hy, (fun ws hws => Option.noConfusion hws), ?_, ?_⟩
      · rw [hgi, Option.none_bind, l2_gradient_none]
      · rw [hhi, Option.none_bind, l2_hessian_none]
  | some ws =>
    obtain ⟨g, h, hrun, hlg, hlh, hval⟩ := forLoop_three (fun s y w => ((s - y) * w, w))
      n score label ws gradients hessians hscore hlabel (hweights ws rfl) hgrad hhess
    refine ⟨g, h, ?_, hlg, hlh, fun i hi => ?_⟩
    · rw [l2_loop_some _ score gradients hessians ws rfl]
      exact hrun
    · obtain ⟨s, y, w, hs, hy, hw, hgi, hhi⟩ := hval i hi
      refine ⟨s, y, hs, hy, (fun ws1 hws => (Option.some.inj hws) ▸ ⟨w, hw⟩), ?_, ?_⟩
      · rw [hgi, Option.some_bind, hw, l2_gradient_some]
      · rw [hhi, Option.some_bind, hw, l2_hessian_some]

/-- On arrays of length `n`, the result of `RegressionL2loss.GetGradients` does not depend on
the contents of the two buffers before the call. -/
theorem l2_run_buffers (n : Nat) (label score gradients hessians g0 h0 : List α)
    (weights : Option (List α))
    (hlabel : label.length = n) (hscore : score.length = n)
    (hgrad : gradients.length = n) (hhess : hessians.length = n)
    (hg0 : g0.length = n) (hh0 : h0.length = n)
    (hweights : ∀ ws, weights = some ws → ws.length = n) :
    (RegressionL2loss.mk n label weights).GetGradients score gradients hessians =
      (RegressionL2loss.mk n label weights).GetGradients score g0 h0 := by
  obtain ⟨g, h, hrun, hlg, hlh, hval⟩ := l2_run n label score gradients hessians weights
    hlabel hscore hgrad hhess hweights
  obtain ⟨g', h', hrun', hlg', hlh', hval'⟩ := l2_run n label score g0 h0 weights
    hlabel hscore hg0 hh0 hweights
  have hgg : g = g' := by
    apply List.ext_getElem?
    intro i
    by_cases hi : i < n
    · obtain ⟨s, y, hs, hy, -, hgi, -⟩ := hval i hi
      obtain ⟨s', y', hs', hy', -, hgi', -⟩ := hval' i hi
      rw [hs] at hs'
      rw [hy] at hy'
      cases hs'
      cases hy'
      rw [hgi, hgi']
    · rw [List.getElem?_eq_none (by omega), List.getElem?_eq_none (by omega)]
  have hhh : h = h' := by
    apply List.ext_getElem?
    intro i
    by_cases hi : i < n
    · obtain ⟨s, y, hs, hy, -, -, hhi⟩ := hval i hi
      obtain ⟨s', y', hs', hy', -, -, hhi'⟩ := hval' i hi
      rw [hs] at hs'
      rw [hy] at hy'
      cases hs'
      cases hy'
      rw [hhi, hhi']
    · rw [List.getElem?_eq_none (by omega), List.getElem?_eq_none (by omega)]
  rw [hrun, hrun', hgg, hhh]

/-- `RegressionFairloss.GetGradients` is its loop of iterations. -/
theorem fair_GetGradients_eq_iteration (self : RegressionFairloss α) (score gradients hessians : List α) :
    self.GetGradients score gradients hessians =
      forLoop self.num_data_ (self.iteration score) (gradients, hessians) := by
  obtain ⟨n, label, weights⟩ := self
  cases weights <;> rfl

/-- Every iteration of `RegressionFairloss.GetGradients` stores one pair that depends on the
index only. -/
theorem fair_iteration_storePair (self : RegressionFairloss α) (score : List α) :
    ∃ f, ∀ i gh, self.iteration score i gh = storePair f i gh := by
  obtain ⟨n, label, weights⟩ := self
  cases weights with
  | none =>
    refine ⟨fun i => (score[i]?).bind fun s => (label[i]?).bind fun y =>
      some (100 * (s - y) / (1 + |s - y| / 2), 100 / (1 + |s - y| / 2) ^ 2), fun i gh => ?_⟩
    cases hs : score[i]? <;> cases hy : label[i]? <;>
      simp [RegressionFairloss.iteration, storePair, hs, hy, RegressionFairloss.fair_c_value]
  | some ws =>
    refine ⟨fun i => (score[i]?).bind fun s => (label[i]?).bind fun y =>
      (ws[i]?).bind fun w => some (w * (s - y) / (1 + |s - y| / 2), w / (1 + |s - y| / 2) ^ 2), fun i gh => ?_⟩
    cases hs : score[i]? <;> cases hy : label[i]? <;> cases hx : ws[i]? <;>
      simp [RegressionFairloss.iteration, storePair, hs, hy, hx, RegressionFairloss.fair_c_value]

/-- On arrays of length `n`, `RegressionFairloss.GetGradients` returns, keeps the lengths of the
buffers, and leaves at every index below `n` the values of the single example at that
index. -/
theorem fair_run (n : Nat) (label score gradients hessians : List α)
    (weights : Option (List α))
    (hlabel : label.length = n) (hscore : score.length = n)
    (hgrad : gradients.length = n) (hhess : hessians.length = n)
    (hweights : ∀ ws, weights = some ws → ws.length = n) :
    ∃ g h, (RegressionFairloss.mk n label weights).GetGradients score gradients hessians
        = some (g, h) ∧ g.length = n ∧ h.length = n ∧
      ∀ i, i < n → ∃ s y, score[i]? = some s ∧ label[i]? = some y ∧
        (∀ ws, weights = some ws → ∃ w, ws[i]? = some w) ∧
        g[i]? = some (fair_gradient (weights.bind fun ws => ws[i]?) y s) ∧
        h[i]? = some (fair_hessian (weights.bind fun ws => ws[i]?) y s) := by
  cases weights with
  | none =>
    obtain ⟨g, h, hrun, hlg, hlh, hval⟩ := forLoop_two (fun s y => (100 * (s - y) / (1 + |s - y| / 2), 100 / (1 + |s - y| / 2) ^ 2))
      n score label gradients hessians hscore hlabel hgrad hhess
    refine ⟨g, h, ?_, hlg, hlh, fun i hi => ?_⟩
    · rw [fair_loop_none _ score gradients hessians rfl]
      exact hrun
    · obtain ⟨s, y, hs, hy, hgi, hhi⟩ := hval i hi
      refine ⟨s, y, hs, hy, (fun ws hws => Option.noConfusion hws), ?_, ?_⟩
      · rw [hgi, Option.none_bind, fair_gradient_none]
      · rw [hhi, Option.none_bind, fair_hessian_none]
  | some ws =>
    obtain ⟨g, h, hrun, hlg, hlh, hval⟩ := forLoop_three (fun s y w => (w * (s - y) / (1 + |s - y| / 2), w / (1 + |s - y| / 2) ^ 2))
      n score label ws gradients hessians hscore hlabel (hweights ws rfl) hgrad hhess
    refine ⟨g, h, ?_, hlg, hlh, fun i hi => ?_⟩
    · rw [fair_loop_some _ score gradients hessians ws rfl]
      exact hrun
    · obtain ⟨s, y, w, hs, hy, hw, hgi, hhi⟩ := hval i hi
      refine ⟨s, y, hs, hy, (fun ws1 hws => (Option.some.inj hws) ▸ ⟨w, hw⟩), ?_, ?_⟩
      · rw [hgi, Option.some_bind, hw, fair_gradient_some]
      · rw [hhi, Option.some_bind, hw, fair_hessian_some]

/-- On arrays of length `n`, the result of `RegressionFairloss.GetGradients` does not depend on
the contents of the two buffers before the call. -/
theorem fair_run_buffers (n : Nat) (label score gradients hessians g0 h0 : List α)
    (weights : Option (List α))
    (hlabel : label.length = n) (hscore : score.length = n)
    (hgrad : gradients.length = n) (hhess : hessians.length = n)
    (hg0 : g0.length = n) (hh0 : h0.length = n)
    (hweights : ∀ ws, weights = some ws → ws.length = n) :
    (RegressionFairloss.mk n label weights).GetGradients score gradients hessians =
      (RegressionFairloss.mk n label weights).GetGradients score g0 h0 := by
  obtain ⟨g, h, hrun, hlg, hlh, hval⟩ := fair_run n label score gradients hessians weights
    hlabel hscore hgrad hhess hweights
  obtain ⟨g', h', hrun', hlg', hlh', hval'⟩ := fair_run n label score g0 h0 weights
    hlabel hscore hg0 hh0 hweights
  have hgg : g = g' := by
    apply List.ext_getElem?
    intro i
    by_cases hi : i < n
    · obtain ⟨s, y, hs, hy, -, hgi, -⟩ := hval i hi
      obtain ⟨s', y', hs', hy', -, hgi', -⟩ := hval' i hi
      rw [hs] at hs'
      rw [hy] at hy'
      cases hs'
      cases hy'
      rw [hgi, hgi']
    · rw [List.getElem?_eq_none (by omega), List.getElem?_eq_none (by omega)]
  have hhh : h = h' := by
    apply List.ext_getElem?
    intro i
    by_cases hi : i < n
    · obtain ⟨s, y, hs, hy, -, -, hhi⟩ := hval i hi
      obtain ⟨s', y', hs', hy', -, -, hhi'⟩ := hval' i hi
      rw [hs] at hs'
      rw [hy] at hy'
      cases hs'
      cases hy'
      rw [hhi, hhi']
    · rw [List.getElem?_eq_none (by omega), List.getElem?_eq_none (by omega)]
  rw [hrun, hrun', hgg, hhh]

/-- C13: for both classes, two runs of `GetGradients` on arrays of their own lengths `n1`
and `n2` that agree at an index `i` below both on `score[i]`, `label[i]`, the presence of
weights and `weight[i]` return with the same `gradients[i]` and `hessians[i]`, which are
the values of the single example `(score[i], label[i], weight[i])`; and running the
iterations of the loop in any order that lists every index below `num_data` once gives
the result of `GetGradients`. -/
theorem per_index_independence (n1 n2 : Nat)
    (label1 score1 g1 h1 label2 score2 g2 h2 : List α) (weights1 weights2 : Option (List α))
    (hlabel1 : label1.length = n1) (hscore1 : score1.length = n1)
    (hg1 : g1.length = n1) (hh1 : h1.length = n1)
    (hweights1 : ∀ ws, weights1 = some ws → ws.length = n1)
    (hlabel2 : label2.length = n2) (hscore2 : score2.length = n2)
    (hg2 : g2.length = n2) (hh2 : h2.length = n2)
    (hweights2 : ∀ ws, weights2 = some ws → ws.length = n2)
    (i : Nat) (hi1 : i < n1) (hi2 : i < n2)
    (hscore : score1[i]? = score2[i]?) (hlabel : label1[i]? = label2[i]?)
    (hpresent : weights1.isSome = weights2.isSome)
    (hweight : ∀ ws1 ws2, weights1 = some ws1 → weights2 = some ws2 → ws1[i]? = ws2[i]?) :
    (∃ a1 b1 a2 b2 s y,
      (RegressionL2loss.mk n1 label1 weights1).GetGradients score1 g1 h1 = some (a1, b1) ∧
      (RegressionL2loss.mk n2 label2 weights2).GetGradients score2 g2 h2 = some (a2, b2) ∧
      score1[i]? = some s ∧ label1[i]? = some y ∧
      a1[i]? = some (l2_gradient (weights1.bind fun ws => ws[i]?) y s) ∧
      b1[i]? = some (l2_hessian (weights1.bind fun ws => ws[i]?) y s) ∧
      a1[i]? = a2[i]? ∧ b1[i]? = b2[i]?) ∧
    (∃ a1 b1 a2 b2 s y,
      (RegressionFairloss.mk n1 label1 weights1).GetGradients score1 g1 h1 = some (a1, b1) ∧
      (RegressionFairloss.mk n2 label2 weights2).GetGradients score2 g2 h2 = some (a2, b2) ∧
      score1[i]? = some s ∧ label1[i]? = some y ∧
      a1[i]? = some (fair_gradient (weights1.bind fun ws => ws[i]?) y s) ∧
      b1[i]? = some (fair_hessian (weights1.bind fun ws => ws[i]?) y s) ∧
      a1[i]? = a2[i]? ∧ b1[i]? = b2[i]?) ∧
    (∀ order : List Nat, order.Perm (List.range n1) →
      forOrder order ((RegressionL2loss.mk n1 label1 weights1).iteration score1) (g1, h1) =
        (RegressionL2loss.mk n1 label1 weights1).GetGradients score1 g1 h1) ∧
    (∀ order : List Nat, order.Perm (List.range n1) →
      forOrder order ((RegressionFairloss.mk n1 label1 weights1).iteration score1) (g1, h1) =
        (RegressionFairloss.mk n1 label1 weights1).GetGradients score1 g1 h1) := by
  have hwi := weight_at_eq weights1 weights2 i hpresent hweight
  refine ⟨?_, ?_, fun order hp => ?_, fun order hp => ?_⟩
  · obtain ⟨a1, b1, hrun1, -, -, hval1⟩ := l2_run n1 label1 score1 g1 h1 weights1
      hlabel1 hscore1 hg1 hh1 hweights1
    obtain ⟨a2, b2, hrun2, -, -, hval2⟩ := l2_run n2 label2 score2 g2 h2 weights2
      hlabel2 hscore2 hg2 hh2 hweights2
    obtain ⟨s, y, hs, hy, -, hgi, hhi⟩ := hval1 i hi1
    obtain ⟨s', y', hs', hy', -, hgi', hhi'⟩ := hval2 i hi2
    rw [← hscore, hs] at hs'
    rw [← hlabel, hy] at hy'
    cases hs'
    cases hy'
    refine ⟨a1, b1, a2, b2, s, y, hrun1, hrun2, hs, hy, hgi, hhi, ?_, ?_⟩
    · rw [hgi, hgi', hwi]
    · rw [hhi, hhi', hwi]
  · obtain ⟨a1, b1, hrun1, -, -, hval1⟩ := fair_run n1 label1 score1 g1 h1 weights1
      hlabel1 hscore1 hg1 hh1 hweights1
    obtain ⟨a2, b2, hrun2, -, -, hval2⟩ := fair_run n2 label2 score2 g2 h2 weights2
      hlabel2 hscore2 hg2 hh2 hweights2
    obtain ⟨s, y, hs, hy, -, hgi, hhi⟩ := hval1 i hi1
    obtain ⟨s', y', hs', hy', -, hgi', hhi'⟩ := hval2 i hi2
    rw [← hscore, hs] at hs'
    rw [← hlabel, hy] at hy'
    cases hs'
    cases hy'
    refine ⟨a1, b1, a2, b2, s, y, hrun1, hrun2, hs, hy, hgi, hhi, ?_, ?_⟩
    · rw [hgi, hgi', hwi]
    · rw [hhi, hhi', hwi]
  · obtain ⟨f, hf⟩ := l2_iteration_storePair (RegressionL2loss.mk n1 label1 weights1) score1
    have hbody : (RegressionL2loss.mk n1 label1 weights1).iteration score1 = storePair f :=
      funext fun i => funext fun gh => hf i gh
    rw [l2_GetGradients_eq_iteration, forLoop_eq_forOrder, hbody]
    exact forOrder_perm (storePair f) (storePair_comm f) hp (g1, h1)
  · obtain ⟨f, hf⟩ := fair_iteration_storePair (RegressionFairloss.mk n1 label1 weights1) score1
    have hbody : (RegressionFairloss.mk n1 label1 weights1).iteration score1 = storePair f :=
      funext fun i => funext fun gh => hf i gh
    rw [fair_GetGradients_eq_iteration, forLoop_eq_forOrder, hbody]
    exact forOrder_perm (storePair f) (storePair_comm f) hp (g1, h1)

/-- Witness of C13: a run on two examples and a run on three examples, with weights,
that agree at index `1`. -/
theorem per_index_independence_witness :
    (∃ a1 b1 a2 b2 s y,
      (RegressionL2loss.mk 2 [1 / 2, (3 : ℚ)] (some [2, 5])).GetGradients [2, 7] [0, 0] [0, 0]
        = some (a1, b1) ∧
      (RegressionL2loss.mk 3 [4, (3 : ℚ), 1] (some [1, 5, 6])).GetGradients [0, 7, 9]
        [8, 8, 8] [9, 9, 9] = some (a2, b2) ∧
      [2, (7 : ℚ)][1]? = some s ∧ [1 / 2, (3 : ℚ)][1]? = some y ∧
      a1[1]? = some (l2_gradient ((some [2, (5 : ℚ)]).bind fun ws => ws[1]?) y s) ∧
      b1[1]? = some (l2_hessian ((some [2, (5 : ℚ)]).bind fun ws => ws[1]?) y s) ∧
      a1[1]? = a2[1]? ∧ b1[1]? = b2[1]?) ∧
    (∃ a1 b1 a2 b2 s y,
      (RegressionFairloss.mk 2 [1 / 2, (3 : ℚ)] (some [2, 5])).GetGradients [2, 7] [0, 0]
        [0, 0] = some (a1, b1) ∧
      (RegressionFairloss.mk 3 [4, (3 : ℚ), 1] (some [1, 5, 6])).GetGradients [0, 7, 9]
        [8, 8, 8] [9, 9, 9] = some (a2, b2) ∧
      [2, (7 : ℚ)][1]? = some s ∧ [1 / 2, (3 : ℚ)][1]? = some y ∧
      a1[1]? = some (fair_gradient ((some [2, (5 : ℚ)]).bind fun ws => ws[1]?) y s) ∧
      b1[1]? = some (fair_hessian ((some [2, (5 : ℚ)]).bind fun ws => ws[1]?) y s) ∧
      a1[1]? = a2[1]? ∧ b1[1]? = b2[1]?) ∧
    (∀ order : List Nat, order.Perm (List.range 2) →
      forOrder order ((RegressionL2loss.mk 2 [1 / 2, (3 : ℚ)] (some [2, 5])).iteration [2, 7])
          ([0, 0], [0, 0]) =
        (RegressionL2loss.mk 2 [1 / 2, (3 : ℚ)] (some [2, 5])).GetGradients [2, 7]
          [0, 0] [0, 0]) ∧
    (∀ order : List Nat, order.Perm (List.range 2) →
      forOrder order ((RegressionFairloss.mk 2 [1 / 2, (3 : ℚ)] (some [2, 5])).iteration
          [2, 7]) ([0, 0], [0, 0]) =
        (RegressionFairloss.mk 2 [1 / 2, (3 : ℚ)] (some [2, 5])).GetGradients [2, 7]
          [0, 0] [0, 0]) :=
  per_index_independence 2 3 [1 / 2, (3 : ℚ)] [2, 7] [0, 0] [0, 0] [4, 3, 1] [0, 7, 9]
    [8, 8, 8] [9, 9, 9] (some [2, 5]) (some [1, 5, 6]) rfl rfl rfl rfl
    (fun ws hws => by cases hws; rfl) rfl rfl rfl rfl
    (fun ws hws => by cases hws; rfl) 1 (by decide) (by decide) rfl rfl rfl
    (fun ws1 ws2 h1 h2 => by cases h1; cases h2; rfl)

/-- C14: for both classes, on arrays of length `num_data`, one call of `GetGradients`
returns and leaves the object and the score array as they were; the state after the call
is the same whatever the two buffers held before; calling again gives the same state, also
after a call on another score array in between. -/
theorem GetGradients_stateless (n : Nat)
    (label score score2 gradients hessians g0 h0 : List α) (weights : Option (List α))
    (hlabel : label.length = n) (hscore : score.length = n) (hscore2 : score2.length = n)
    (hgrad : gradients.length = n) (hhess : hessians.length = n)
    (hg0 : g0.length = n) (hh0 : h0.length = n)
    (hweights : ∀ ws, weights = some ws → ws.length = n) :
    (∃ m1, RegressionL2loss.GetGradientsCall
        ⟨RegressionL2loss.mk n label weights, score, gradients, hessians⟩ = some m1 ∧
      m1.self = RegressionL2loss.mk n label weights ∧ m1.score = score ∧
      m1.gradients.length = n ∧ m1.hessians.length = n ∧
      RegressionL2loss.GetGradientsCall
        ⟨RegressionL2loss.mk n label weights, score, g0, h0⟩ = some m1 ∧
      RegressionL2loss.GetGradientsCall m1 = some m1 ∧
      ∃ m2, RegressionL2loss.GetGradientsCall
          ⟨m1.self, score2, m1.gradients, m1.hessians⟩ = some m2 ∧
        m2.self = m1.self ∧ m2.score = score2 ∧
        RegressionL2loss.GetGradientsCall ⟨m2.self, score, m2.gradients, m2.hessians⟩
          = some m1) ∧
    (∃ m1, RegressionFairloss.GetGradientsCall
        ⟨RegressionFairloss.mk n label weights, score, gradients, hessians⟩ = some m1 ∧
      m1.self = RegressionFairloss.mk n label weights ∧ m1.score = score ∧
      m1.gradients.length = n ∧ m1.hessians.length = n ∧
      RegressionFairloss.GetGradientsCall
        ⟨RegressionFairloss.mk n label weights, score, g0, h0⟩ = some m1 ∧
      RegressionFairloss.GetGradientsCall m1 = some m1 ∧
      ∃ m2, RegressionFairloss.GetGradientsCall
          ⟨m1.self, score2, m1.gradients, m1.hessians⟩ = some m2 ∧
        m2.self = m1.self ∧ m2.score = score2 ∧
        RegressionFairloss.GetGradientsCall ⟨m2.self, score, m2.gradients, m2.hessians⟩
          = some m1) := by
  constructor
  · obtain ⟨g, h, hrun, hlg, hlh, -⟩ := l2_run n label score gradients hessians weights
      hlabel hscore hgrad hhess hweights
    obtain ⟨g2, h2, hrun2, hlg2, hlh2, -⟩ := l2_run n label score2 g h weights
      hlabel hscore2 hlg hlh hweights
    have hany : ∀ a b : List α, a.length = n → b.length = n →
        (RegressionL2loss.mk n label weights).GetGradients score a b = some (g, h) :=
      fun a b ha hb => by
        rw [l2_run_buffers n label score a b gradients hessians weights hlabel hscore ha hb
          hgrad hhess hweights]
        exact hrun
    refine ⟨⟨_, score, g, h⟩, ?_, rfl, rfl, hlg, hlh, ?_, ?_, ⟨_, score2, g2, h2⟩, ?_,
      rfl, rfl, ?_⟩
    · simp only [RegressionL2loss.GetGradientsCall, hrun, Option.map_some']
    · simp only [RegressionL2loss.GetGradientsCall, hany g0 h0 hg0 hh0, Option.map_some']
    · simp only [RegressionL2loss.GetGradientsCall, hany g h hlg hlh, Option.map_some']
    · simp only [RegressionL2loss.GetGradientsCall, hrun2, Option.map_some']
    · simp only [RegressionL2loss.GetGradientsCall, hany g2 h2 hlg2 hlh2, Option.map_some']
  · obtain ⟨g, h, hrun, hlg, hlh, -⟩ := fair_run n label score gradients hessians weights
      hlabel hscore hgrad hhess hweights
    obtain ⟨g2, h2, hrun2, hlg2, hlh2, -⟩ := fair_run n label score2 g h weights
      hlabel hscore2 hlg hlh hweights
    have hany : ∀ a b : List α, a.length = n → b.length = n →
        (RegressionFairloss.mk n label weights).GetGradients score a b = some (g, h) :=
      fun a b ha hb => by
        rw [fair_run_buffers n label score a b gradients hessians weights hlabel hscore ha hb
          hgrad hhess hweights]
        exact hrun
    refine ⟨⟨_, score, g, h⟩, ?_, rfl, rfl, hlg, hlh, ?_, ?_, ⟨_, score2, g2, h2⟩, ?_,
      rfl, rfl, ?_⟩
    · simp only [RegressionFairloss.GetGradientsCall, hrun, Option.map_some']
    · simp only [RegressionFairloss.GetGradientsCall, hany g0 h0 hg0 hh0, Option.map_some']
    · simp only [RegressionFairloss.GetGradientsCall, hany g h hlg hlh, Option.map_some']
    · simp only [RegressionFairloss.GetGradientsCall, hrun2, Option.map_some']
    · simp only [RegressionFairloss.GetGradientsCall, hany g2 h2 hlg2 hlh2, Option.map_some']

/-- Witness of C14 on two examples with the weights `[4, 1/3]`, other buffer contents
`[7, 8]`, `[9, 6]` and the other score array `[-2, 11]`. -/
theorem GetGradients_stateless_witness :
    (∃ m1, RegressionL2loss.GetGradientsCall
        ⟨RegressionL2loss.mk 2 [0, (3 : ℚ)] (some [4, 1 / 3]), [1, 5], [0, 0], [0, 0]⟩ = some m1 ∧
      m1.self = RegressionL2loss.mk 2 [0, (3 : ℚ)] (some [4, 1 / 3]) ∧ m1.score = [1, 5] ∧
      m1.gradients.length = 2 ∧ m1.hessians.length = 2 ∧
      RegressionL2loss.GetGradientsCall
        ⟨RegressionL2loss.mk 2 [0, (3 : ℚ)] (some [4, 1 / 3]), [1, 5], [7, 8], [9, 6]⟩ = some m1 ∧
      RegressionL2loss.GetGradientsCall m1 = some m1 ∧
      ∃ m2, RegressionL2loss.GetGradientsCall
          ⟨m1.self, [-2, 11], m1.gradients, m1.hessians⟩ = some m2 ∧
        m2.self = m1.self ∧ m2.score = [-2, 11] ∧
        RegressionL2loss.GetGradientsCall ⟨m2.self, [1, 5], m2.gradients, m2.hessians⟩
          = some m1) ∧
    (∃ m1, RegressionFairloss.GetGradientsCall
        ⟨RegressionFairloss.mk 2 [0, (3 : ℚ)] (some [4, 1 / 3]), [1, 5], [0, 0], [0, 0]⟩ = some m1 ∧
      m1.self = RegressionFairloss.mk 2 [0, (3 : ℚ)] (some [4, 1 / 3]) ∧ m1.score = [1, 5] ∧
      m1.gradients.length = 2 ∧ m1.hessians.length = 2 ∧
      RegressionFairloss.GetGradientsCall
        ⟨RegressionFairloss.mk 2 [0, (3 : ℚ)] (some [4, 1 / 3]), [1, 5], [7, 8], [9, 6]⟩ = some m1 ∧
      RegressionFairloss.GetGradientsCall m1 = some m1 ∧
      ∃ m2, RegressionFairloss.GetGradientsCall
          ⟨m1.self, [-2, 11], m1.gradients, m1.hessians⟩ = some m2 ∧
        m2.self = m1.self ∧ m2.score = [-2, 11] ∧
        RegressionFairloss.GetGradientsCall ⟨m2.self, [1, 5], m2.gradients, m2.hessians⟩
          = some m1) :=
  GetGradients_stateless 2 [0, (3 : ℚ)] [1, 5] [-2, 11] [0, 0] [0, 0] [7, 8] [9, 6]
    (some [4, 1 / 3]) rfl rfl rfl rfl rfl rfl rfl (fun ws hws => by cases hws; rfl)

/-- C16: for both classes, when `label`, `weight` (when present), `score`, `gradients` and
`hessians` all have length `num_data`, `GetGradients` returns (no access is out of
bounds, the loop ends), both buffers keep the length `num_data`, every index below
`num_data` of both buffers holds the value computed from the reads at that index, and
the divisors `1 + |d| / 2` and `(1 + |d| / 2) ^ 2` of the Fair loss are not zero. -/
theorem GetGradients_total (n : Nat) (label score gradients hessians : List α)
    (weights : Option (List α))
    (hlabel : label.length = n) (hscore : score.length = n)
    (hgrad : gradients.length = n) (hhess : hessians.length = n)
    (hweights : ∀ ws, weights = some ws → ws.length = n) :
    (∃ g h, (RegressionL2loss.mk n label weights).GetGradients score gradients hessians
        = some (g, h) ∧ g.length = n ∧ h.length = n ∧
      ∀ i, i < n → ∃ s y, score[i]? = some s ∧ label[i]? = some y ∧
        (∀ ws, weights = some ws → ∃ w, ws[i]? = some w) ∧
        g[i]? = some (l2_gradient (weights.bind fun ws => ws[i]?) y s) ∧
        h[i]? = some (l2_hessian (weights.bind fun ws => ws[i]?) y s)) ∧
    (∃ g h, (RegressionFairloss.mk n label weights).GetGradients score gradients hessians
        = some (g, h) ∧ g.length = n ∧ h.length = n ∧
      ∀ i, i < n → ∃ s y, score[i]? = some s ∧ label[i]? = some y ∧
        (∀ ws, weights = some ws → ∃ w, ws[i]? = some w) ∧
        g[i]? = some (fair_gradient (weights.bind fun ws => ws[i]?) y s) ∧
        h[i]? = some (fair_hessian (weights.bind fun ws => ws[i]?) y s) ∧
        1 + |s - y| / RegressionFairloss.fair_c_value ≠ 0 ∧
        (1 + |s - y| / RegressionFairloss.fair_c_value) ^ 2 ≠ 0) := by
  refine ⟨l2_run n label score gradients hessians weights hlabel hscore hgrad hhess hweights,
    ?_⟩
  obtain ⟨g, h, hrun, hlg, hlh, hval⟩ := fair_run n label score gradients hessians weights
    hlabel hscore hgrad hhess hweights
  refine ⟨g, h, hrun, hlg, hlh, fun i hi => ?_⟩
  obtain ⟨s, y, hs, hy, hw, hgi, hhi⟩ := hval i hi
  exact ⟨s, y, hs, hy, hw, hgi, hhi, ne_of_gt (fair_denominator_pos (s - y)),
    ne_of_gt (fair_denominator_sq_pos (s - y))⟩

/-- Witness of C16 on two examples with the weights `[4, 1/3]`. -/
theorem GetGradients_total_witness :
    (∃ g h, (RegressionL2loss.mk 2 [0, (3 : ℚ)] (some [4, 1 / 3])).GetGradients [1, 5]
        [0, 0] [0, 0] = some (g, h) ∧ g.length = 2 ∧ h.length = 2 ∧
      ∀ i, i < 2 → ∃ s y, [1, (5 : ℚ)][i]? = some s ∧ [0, (3 : ℚ)][i]? = some y ∧
        (∀ ws, some [4, (1 / 3 : ℚ)] = some ws → ∃ w, ws[i]? = some w) ∧
        g[i]? = some (l2_gradient ((some [4, (1 / 3 : ℚ)]).bind fun ws => ws[i]?) y s) ∧
        h[i]? = some (l2_hessian ((some [4, (1 / 3 : ℚ)]).bind fun ws => ws[i]?) y s)) ∧
    (∃ g h, (RegressionFairloss.mk 2 [0, (3 : ℚ)] (some [4, 1 / 3])).GetGradients [1, 5]
        [0, 0] [0, 0] = some (g, h) ∧ g.length = 2 ∧ h.length = 2 ∧
      ∀ i, i < 2 → ∃ s y, [1, (5 : ℚ)][i]? = some s ∧ [0, (3 : ℚ)][i]? = some y ∧
        (∀ ws, some [4, (1 / 3 : ℚ)] = some ws → ∃ w, ws[i]? = some w) ∧
        g[i]? = some (fair_gradient ((some [4, (1 / 3 : ℚ)]).bind fun ws => ws[i]?) y s) ∧
        h[i]? = some (fair_hessian ((some [4, (1 / 3 : ℚ)]).bind fun ws => ws[i]?) y s) ∧
        1 + |s - y| / RegressionFairloss.fair_c_value ≠ 0 ∧
        (1 + |s - y| / RegressionFairloss.fair_c_value) ^ 2 ≠ 0) :=
  GetGradients_total 2 [0, (3 : ℚ)] [1, 5] [0, 0] [0, 0] (some [4, 1 / 3]) rfl rfl rfl rfl
    (fun ws hws => by cases hws; rfl)

end runs

/-! ## Derivatives over the reals -/

section analysis

/-- The branch of the Fair gradient for non-negative residuals. -/
theorem fair_plus_hasDerivAt (c x : ℝ) (hx : 1 + x / 2 ≠ 0) :
    HasDerivAt (fun t : ℝ => c * t / (1 + t / 2)) (c / (1 + x / 2) ^ 2) x := by
  have hnum : HasDerivAt (fun t : ℝ => c * t) c x := by
    simpa using (hasDerivAt_id x).const_mul c
  have hden : HasDerivAt (fun t : ℝ => 1 + t / 2) (1 / 2) x := by
    simpa using ((hasDerivAt_id x).div_const 2).const_add 1
  have h := hnum.div hden hx
  have e : c * (1 + x / 2) - c * x * (1 / 2) = c := by ring
  rw [e] at h
  exact h

/-- The branch of the Fair gradient for non-positive residuals. -/
theorem fair_minus_hasDerivAt (c x : ℝ) (hx : 1 + -x / 2 ≠ 0) :
    HasDerivAt (fun t : ℝ => c * t / (1 + -t / 2)) (c / (1 + -x / 2) ^ 2) x := by
  have hnum : HasDerivAt (fun t : ℝ => c * t) c x := by
    simpa using (hasDerivAt_id x).const_mul c
  have hden : HasDerivAt (fun t : ℝ => 1 + -t / 2) (-1 / 2) x := by
    simpa using (((hasDerivAt_id x).neg).div_const 2).const_add 1
  have h := hnum.div hden hx
  have e : c * (1 + -x / 2) - c * x * (-1 / 2) = c := by ring
  rw [e] at h
  exact h

/-- The map `t ↦ c * t / (1 + |t| / 2)` has the derivative `c / (1 + |x| / 2) ^ 2` at
every real `x`, also at `0`. -/
theorem fair_core_hasDerivAt (c x : ℝ) :
    HasDerivAt (fun t : ℝ => c * t / (1 + |t| / 2)) (c / (1 + |x| / 2) ^ 2) x := by
  rcases lt_trichotomy x 0 with hneg | hzero | hpos
  · have hne : 1 + -x / 2 ≠ 0 := by
      have : 0 < 1 + -x / 2 := by linarith
      exact ne_of_gt this
    have h := fair_minus_hasDerivAt c x hne
    rw [abs_of_neg hneg]
    refine h.congr_of_eventuallyEq ?_
    filter_upwards [Iio_mem_nhds hneg] with t ht
    simp only [abs_of_neg (show t < 0 from ht)]
  · subst hzero
    have hp : HasDerivWithinAt (fun t : ℝ => c * t / (1 + |t| / 2))
        (c / (1 + |(0 : ℝ)| / 2) ^ 2) (Set.Ici 0) 0 := by
      have h : HasDerivWithinAt (fun t : ℝ => c * t / (1 + t / 2))
          (c / (1 + (0 : ℝ) / 2) ^ 2) (Set.Ici 0) 0 :=
        (fair_plus_hasDerivAt c 0 (by norm_num)).hasDerivWithinAt
      rw [abs_zero]
      refine HasDerivWithinAt.congr h (fun t ht => ?_) ?_
      · simp only [abs_of_nonneg (show (0 : ℝ) ≤ t from ht)]
      · simp
    have hm : HasDerivWithinAt (fun t : ℝ => c * t / (1 + |t| / 2))
        (c / (1 + |(0 : ℝ)| / 2) ^ 2) (Set.Iic 0) 0 := by
      have h : HasDerivWithinAt (fun t : ℝ => c * t / (1 + -t / 2))
          (c / (1 + -(0 : ℝ) / 2) ^ 2) (Set.Iic 0) 0 :=
        (fair_minus_hasDerivAt c 0 (by norm_num)).hasDerivWithinAt
      rw [abs_zero]
      rw [neg_zero] at h
      refine HasDerivWithinAt.congr h (fun t ht => ?_) ?_
      · simp only [abs_of_nonpos (show t ≤ (0 : ℝ) from ht)]
      · simp
    have hu := hm.union hp
    rw [Set.Iic_union_Ici] at hu
    exact hasDerivWithinAt_univ.mp hu
  · have hne : 1 + x / 2 ≠ 0 := by
      have : 0 < 1 + x / 2 := by linarith
      exact ne_of_gt this
    have h := fair_plus_hasDerivAt c x hne
    rw [abs_of_pos hpos]
    refine h.congr_of_eventuallyEq ?_
    filter_upwards [Ioi_mem_nhds hpos] with t ht
    simp only [abs_of_pos (show 0 < t from ht)]

/-- C19: over the reals, for every label `y` and weight `w`, the gradient written by
`RegressionFairloss.GetGradients` is, as a function of the score, differentiable at every
score `s`, also at `s = y`, and its derivative is the hessian written for `s`:
`100 / (1 + |s - y| / 2) ^ 2` without weights, `w / (1 + |s - y| / 2) ^ 2` with the
weight `w`. -/
theorem fair_hessian_is_derivative (y s w : ℝ) :
    HasDerivAt (fun t => fair_gradient none y t) (fair_hessian none y s) s ∧
    HasDerivAt (fun t => fair_gradient (some w) y t) (fair_hessian (some w) y s) s ∧
    fair_hessian none y s = 100 / (1 + |s - y| / 2) ^ 2 ∧
    fair_hessian (some w) y s = w / (1 + |s - y| / 2) ^ 2 ∧
    HasDerivAt (fun t => fair_gradient none y t) 100 y ∧
    HasDerivAt (fun t => fair_gradient (some w) y t) w y := by
  have hnone : ∀ u : ℝ, HasDerivAt (fun t => fair_gradient none y t)
      (100 / (1 + |u - y| / 2) ^ 2) u := by
    intro u
    have h := HasDerivAt.comp_sub_const u y (fair_core_hasDerivAt 100 (u - y))
    have hfun : (fun t => fair_gradient none y t) =
        fun t => 100 * (t - y) / (1 + |t - y| / 2) := funext fun t => fair_gradient_none y t
    rw [hfun]
    exact h
  have hsome : ∀ u : ℝ, HasDerivAt (fun t => fair_gradient (some w) y t)
      (w / (1 + |u - y| / 2) ^ 2) u := by
    intro u
    have h := HasDerivAt.comp_sub_const u y (fair_core_hasDerivAt w (u - y))
    have hfun : (fun t => fair_gradient (some w) y t) =
        fun t => w * (t - y) / (1 + |t - y| / 2) := funext fun t => fair_gradient_some w y t
    rw [hfun]
    exact h
  refine ⟨?_, ?_, fair_hessian_none y s, fair_hessian_some w y s, ?_, ?_⟩
  · rw [fair_hessian_none]
    exact hnone s
  · rw [fair_hessian_some]
    exact hsome s
  · simpa using hnone y
  · simpa using hsome y

/-- C18: over the reals, for every label `y`, score `s` and weight `w`, the gradient
`s - y` written by `RegressionL2loss.GetGradients` without weights is the derivative in
the score of `L(s, y) = 1/2 * (s - y)^2` and the hessian `1` is its second derivative;
with the weight `w` the gradient and the hessian are the first and second derivatives
of `w * L(s, y)`. -/
theorem l2_derivatives (y s w : ℝ) :
    HasDerivAt (fun t => l2_loss t y) (l2_gradient none y s) s ∧
    HasDerivAt (deriv fun t => l2_loss t y) (l2_hessian none y s) s ∧
    HasDerivAt (fun t => w * l2_loss t y) (l2_gradient (some w) y s) s ∧
    HasDerivAt (deriv fun t => w * l2_loss t y) (l2_hessian (some w) y s) s ∧
    l2_gradient none y s = s - y ∧ l2_hessian none y s = 1 ∧
    l2_gradient (some w) y s = (s - y) * w ∧ l2_hessian (some w) y s = w := by
  have hloss : ∀ u : ℝ, HasDerivAt (fun t => l2_loss t y) (u - y) u := by
    intro u
    have h := (((hasDerivAt_id u).sub_const y).pow 2).const_mul (1 / 2 : ℝ)
    have e : (1 / 2 : ℝ) * ((2 : ℕ) * (id u - y) ^ (2 - 1) * 1) = u - y := by
      simp only [id, Nat.cast_ofNat]
      ring
    rw [e] at h
    exact h
  have hwloss : ∀ u : ℝ, HasDerivAt (fun t => w * l2_loss t y) ((u - y) * w) u := by
    intro u
    have h := (hloss u).const_mul w
    rw [mul_comm] at h
    exact h
  have hderiv : (deriv fun t => l2_loss t y) = fun t => t - y :=
    funext fun u => (hloss u).deriv
  have hwderiv : (deriv fun t => w * l2_loss t y) = fun t => (t - y) * w :=
    funext fun u => (hwloss u).deriv
  refine ⟨?_, ?_, ?_, ?_, l2_gradient_none y s, l2_hessian_none y s,
    l2_gradient_some w y s, l2_hessian_some w y s⟩
  · rw [l2_gradient_none]
    exact hloss s
  · rw [l2_hessian_none, hderiv]
    exact (hasDerivAt_id s).sub_const y
  · rw [l2_gradient_some]
    exact hwloss s
  · rw [l2_hessian_some, hwderiv]
    have h := ((hasDerivAt_id s).sub_const y).mul_const w
    rw [one_mul] at h
    exact h

end analysis

end LightGBM
